import Mathlib

/-!
Shallow embedding of the decision-and-execution core of the `ai-bot` trading
agent, together with theorems settling the frozen claims about it.

Conventions used throughout:
* Python `float` arithmetic is modelled over `ℚ` (exact field arithmetic).
* A Python function that can raise is modelled as returning `Option`; `none`
  stands for a propagated exception.
* Stateful methods are modelled as explicit state-passing functions; external
  calls (the exchange API) are modelled as oracles supplied as arguments.
-/

namespace AiBot

/-! ## RiskManager (`src/risk/risk_manager.py`) -/

/-- The `risk.volatility_targeting` sub-config read by
`RiskManager.calculate_position_size`. -/
structure VolTargetConfig where
  enabled : Bool
  target_volatility : ℚ
  max_multiplier : ℚ
deriving Repr, DecidableEq

/-- The slice of the `risk` config consumed by
`RiskManager.calculate_position_size` (`config.get` defaults:
`stop_loss_pct` 0.015, `risk_per_trade_pct` 0.01, `max_position_size` 0.10). -/
structure RiskConfig where
  stop_loss_pct : ℚ
  risk_per_trade_pct : ℚ
  max_position_size : ℚ
  volatility_targeting : VolTargetConfig
deriving Repr, DecidableEq

/-- `RiskManager.calculate_position_size` (risk_manager.py lines 65–135).

Risk-based sizing: the target risk fraction is interpolated between
`0.6 * risk_per_trade_pct` and `1.33 * risk_per_trade_pct` by confidence,
converted to a position value by dividing by the stop-loss fraction,
optionally scaled by a volatility multiplier, clipped to
`equity * max_position_size`, and converted to a quantity by dividing by the
entry price (guarded: zero quantity when `entry_price <= 0`).
`none` models the `ZeroDivisionError` raised when `stop_loss_pct = 0`. -/
def calculate_position_size (cfg : RiskConfig) (equity signal_confidence entry_price : ℚ)
    (current_volatility : Option ℚ) : Option ℚ :=
  let stop_loss_pct := cfg.stop_loss_pct
  let base_risk_pct := cfg.risk_per_trade_pct
  let min_risk_pct := base_risk_pct * (6/10)
  let max_risk_pct := base_risk_pct * (133/100)
  let target_risk_pct := min_risk_pct + (max_risk_pct - min_risk_pct) * signal_confidence
  let target_risk_amount := equity * target_risk_pct
  if stop_loss_pct = 0 then none
  else
    let position_value := target_risk_amount / stop_loss_pct
    let position_value :=
      match cfg.volatility_targeting.enabled, current_volatility with
      | true, some cv =>
          let target_vol := cfg.volatility_targeting.target_volatility
          let max_mult := cfg.volatility_targeting.max_multiplier
          let vol_multiplier := min (if 0 < cv then target_vol / cv else 1) max_mult
          position_value * vol_multiplier
      | _, _ => position_value
    let max_position_value := equity * cfg.max_position_size
    let position_value := min position_value max_position_value
    some (if 0 < entry_price then position_value / entry_price else 0)

example :
    calculate_position_size ⟨3/200, 1/100, 1, ⟨false, 0, 0⟩⟩ 10000 (1/2) 10 none
      = some (1930/3) := by norm_num [calculate_position_size]

/-- C1: with volatility targeting disabled, the returned quantity is
`min (equity * target / stop_loss_pct) (equity * max_position_size) / entry_price`
where `target = 0.6·r + (1.33·r − 0.6·r)·confidence`; and at equity 10000,
stop-loss 0.015, base risk 0.01, confidence 0.5 the target risk amount is
96.5, the pre-clip position value is 96.5/0.015 = 19300/3 ≈ 6433, and the
returned quantity is that value (after the max-position-size clip) divided by
the entry price. -/
theorem risk_sizing_formula (cfg : RiskConfig) (equity conf entry : ℚ)
    (vol : Option ℚ)
    (hvol : cfg.volatility_targeting.enabled = false)
    (hslp : 0 < cfg.stop_loss_pct) (heq : 0 < equity) (hentry : 0 < entry)
    (hc0 : 0 ≤ conf) (hc1 : conf ≤ 1) :
    calculate_position_size cfg equity conf entry vol
      = some (min
          (equity * (cfg.risk_per_trade_pct * (6/10)
            + (cfg.risk_per_trade_pct * (133/100) - cfg.risk_per_trade_pct * (6/10)) * conf)
            / cfg.stop_loss_pct)
          (equity * cfg.max_position_size) / entry)
    ∧ (∀ mps entry' : ℚ, 0 < entry' →
        calculate_position_size ⟨3/200, 1/100, mps, ⟨false, 0, 0⟩⟩ 10000 (1/2) entry' none
          = some (min (19300/3) (10000 * mps) / entry'))
    ∧ (10000 : ℚ) * ((1/100) * (6/10) + ((1/100) * (133/100) - (1/100) * (6/10)) * (1/2))
        = 193/2
    ∧ (193/2 : ℚ) / (3/200) = 19300/3
    ∧ (∀ entry' : ℚ, 0 < entry' →
        calculate_position_size ⟨3/200, 1/100, 1, ⟨false, 0, 0⟩⟩ 10000 (1/2) entry' none
          = some ((19300/3) / entry')) := by
  refine ⟨?_, ?_, by norm_num, by norm_num, ?_⟩
  · rcases vol with _ | cv <;>
      simp [calculate_position_size, hvol, hslp.ne', hentry]
  · intro mps entry' h
    norm_num [calculate_position_size, h]
  · intro entry' h
    norm_num [calculate_position_size, h]

/-- Closed witness for `risk_sizing_formula`. -/
theorem risk_sizing_formula_witness :
    calculate_position_size ⟨3/200, 1/100, 1, ⟨false, 0, 0⟩⟩ 10000 (1/2) 10 none
      = some (min
          ((10000 : ℚ) * ((1/100) * (6/10) + ((1/100) * (133/100) - (1/100) * (6/10)) * (1/2))
            / (3/200))
          (10000 * 1) / 10) :=
  (risk_sizing_formula ⟨3/200, 1/100, 1, ⟨false, 0, 0⟩⟩ 10000 (1/2) 10 none
    rfl (by norm_num) (by norm_num) (by norm_num) (by norm_num) (by norm_num)).1

/-- C10: with a positive stop-loss fraction `calculate_position_size` is total
(never `none`), returns 0 when the entry price is nonpositive, and otherwise
the returned quantity respects the position-size cap:
`quantity * entry_price ≤ equity * max_position_size`. -/
theorem risk_sizing_total_and_capped (cfg : RiskConfig)
    (equity conf entry : ℚ) (vol : Option ℚ)
    (heq : 0 ≤ equity) (hslp : 0 < cfg.stop_loss_pct) :
    ∃ q, calculate_position_size cfg equity conf entry vol = some q
      ∧ (entry ≤ 0 → q = 0)
      ∧ (0 < entry → q * entry ≤ equity * cfg.max_position_size) := by
  unfold calculate_position_size
  rw [if_neg hslp.ne']
  refine ⟨_, rfl, ?_, ?_⟩
  · intro hle
    rw [if_neg (by linarith)]
  · intro hpos
    rw [if_pos hpos, div_mul_cancel₀ _ hpos.ne']
    exact min_le_right _ _

/-- Closed witness for `risk_sizing_total_and_capped`: the function returns a
value (not an exception) at a concrete input. -/
theorem risk_sizing_total_and_capped_witness :
    (calculate_position_size ⟨3/200, 1/100, 1/10, ⟨false, 0, 0⟩⟩ 10000 (1/2) 10 none).isSome
      = true := by
  obtain ⟨q, hq, -, -⟩ :=
    risk_sizing_total_and_capped ⟨3/200, 1/100, 1/10, ⟨false, 0, 0⟩⟩ 10000 (1/2) 10 none
      (by norm_num) (by norm_num)
  rw [hq]
  rfl

/-! ## PerformanceGuard (`src/risk/performance_guard.py`) -/

/-- The guard status strings `"NORMAL"`, `"REDUCED"`, `"PAUSED"`. -/
inductive GuardStatus
  | NORMAL
  | REDUCED
  | PAUSED
deriving Repr, DecidableEq

/-- One entry of the `recent_trades` deque (the stored wall-clock timestamp is
never read by any modelled operation and is omitted). -/
structure GuardTrade where
  pnl : ℚ
  is_win : Bool
deriving Repr, DecidableEq

/-- `PerformanceGuard` instance state plus its config fields. -/
structure PerformanceGuard where
  enabled : Bool
  rolling_window_trades : ℕ
  win_rate_threshold_reduced : ℚ
  drawdown_threshold_reduced : ℚ
  win_rate_threshold_paused : ℚ
  drawdown_threshold_paused : ℚ
  recovery_win_rate : ℚ
  recovery_drawdown : ℚ
  recent_trades : List GuardTrade
  peak_equity : Option ℚ
  initial_equity : Option ℚ
  current_status : GuardStatus
deriving Repr, DecidableEq

/-- Python truthiness of an optional float: `None` and `0.0` are falsy. -/
def optTruthy (x : Option ℚ) : Bool :=
  match x with
  | none => false
  | some v => decide (v ≠ 0)

/-- `PerformanceGuard.update_equity`. The result is `none` for the `TypeError`
Python would raise comparing a float against `peak_equity = None`, which can
only happen from states where `initial_equity` is set but `peak_equity` is
not; no field is mutated in that case. -/
def guard_update_equity (g : PerformanceGuard) (equity : ℚ) : Option PerformanceGuard :=
  let g' :=
    if g.initial_equity.isNone then
      { g with initial_equity := some equity, peak_equity := some equity }
    else g
  match g'.peak_equity with
  | none => none
  | some p => some (if p < equity then { g' with peak_equity := some equity } else g')

/-- `collections.deque(maxlen := n)` append: drops from the front when full. -/
def dequeAppend (n : ℕ) (l : List GuardTrade) (t : GuardTrade) : List GuardTrade :=
  let l' := l ++ [t]
  l'.drop (l'.length - n)

/-- `PerformanceGuard.record_trade`: appends the outcome to the bounded deque
(`maxlen = 2 * rolling_window_trades`); it never touches `current_status`. -/
def record_trade (g : PerformanceGuard) (pnl : ℚ) (is_win : Bool) : PerformanceGuard :=
  { g with recent_trades :=
      dequeAppend (2 * g.rolling_window_trades) g.recent_trades ⟨pnl, is_win⟩ }

/-- The dict returned by `get_recent_metrics`; `num_trades := none` models the
empty-deque branch whose dict lacks the `num_trades` key. -/
structure GuardMetrics where
  win_rate : ℚ
  total_pnl : ℚ
  losing_streak : ℕ
  drawdown : ℚ
  num_trades : Option ℕ
deriving Repr, DecidableEq

/-- Python `l[-w:]`: the last `w` elements for `w > 0`, the whole list for
`w = 0`. -/
def pythonTailSlice (w : ℕ) (l : List GuardTrade) : List GuardTrade :=
  if w = 0 then l else l.drop (l.length - w)

/-- `PerformanceGuard.get_recent_metrics`. -/
def get_recent_metrics (g : PerformanceGuard) : GuardMetrics :=
  if g.recent_trades = [] then ⟨0, 0, 0, 0, none⟩
  else
    let recent := pythonTailSlice g.rolling_window_trades g.recent_trades
    if recent = [] then ⟨0, 0, 0, 0, none⟩
    else
      let wins := (recent.filter (·.is_win)).length
      let win_rate := if recent.length = 0 then 0 else (wins : ℚ) / recent.length
      let total_pnl := (recent.map (·.pnl)).sum
      let losing_streak := (recent.reverse.takeWhile (fun t => !t.is_win)).length
      let drawdown :=
        match g.peak_equity, g.initial_equity with
        | some p, some i =>
            if p ≠ 0 ∧ i ≠ 0 then
              if 0 < p then
                (p - (i + (g.recent_trades.map (·.pnl)).sum)) / p
              else 0
            else 0
        | _, _ => 0
      ⟨win_rate, total_pnl, losing_streak, drawdown, some recent.length⟩

/-- The `(A and num_trades >= 5) or streak or (drawdown and peak)` pattern of
`check_status`, with Python short-circuiting: the `num_trades` key is read
only when the win-rate conjunct is true (`none` models the `KeyError`). -/
def guardCond (m : GuardMetrics) (winBelow : Bool) (streakHit : Bool)
    (ddHit : Bool) : Option Bool :=
  (if winBelow then m.num_trades.map (fun n => decide (5 ≤ n)) else some false).map
    (fun ab => ab || streakHit || ddHit)

/-- The threshold/transition part of `check_status`, acting on the
equity-updated guard state. -/
def check_status_core (g1 : PerformanceGuard) : PerformanceGuard × Option GuardStatus :=
  let m := get_recent_metrics g1
  let peakT := optTruthy g1.peak_equity
  match guardCond m (decide (m.win_rate < g1.win_rate_threshold_paused))
      (decide (10 ≤ m.losing_streak))
      (decide (g1.drawdown_threshold_paused < m.drawdown) && peakT) with
  | none => (g1, none)
  | some pc =>
    if pc then ({ g1 with current_status := .PAUSED }, some .PAUSED)
    else
      match guardCond m (decide (m.win_rate < g1.win_rate_threshold_reduced))
          (decide (5 ≤ m.losing_streak))
          (decide (g1.drawdown_threshold_reduced < m.drawdown) && peakT) with
      | none => (g1, none)
      | some rc =>
        if rc then
          let g2 := if g1.current_status = .NORMAL
                    then { g1 with current_status := .REDUCED } else g1
          (g2, some g2.current_status)
        else if g1.current_status = .PAUSED ∨ g1.current_status = .REDUCED then
          match (if g1.recovery_win_rate ≤ m.win_rate
                 then m.num_trades.map
                   (fun n => decide (5 ≤ n) && decide (m.drawdown < g1.recovery_drawdown))
                 else some false) with
          | none => (g1, none)
          | some rec =>
            let g2 := if rec then { g1 with current_status := .NORMAL } else g1
            (g2, some g2.current_status)
        else (g1, some g1.current_status)

/-- `PerformanceGuard.check_status`. Returns the updated guard plus
`some status` on normal return; the second component is `none` when the
Python code raises (the `KeyError` reading the missing `num_trades` key, or
the `update_equity` `TypeError`). -/
def check_status (g : PerformanceGuard) (current_equity : Option ℚ) :
    PerformanceGuard × Option GuardStatus :=
  if g.enabled = false then (g, some .NORMAL)
  else
    match (match current_equity with
           | some v => if v ≠ 0 then guard_update_equity g v else some g
           | none => some g) with
    | none => (g, none)
    | some g1 => check_status_core g1

/-- `PerformanceGuard.should_allow_trade`. -/
def should_allow_trade (g : PerformanceGuard) : Bool × String :=
  if g.enabled = false then (true, "OK")
  else if g.current_status = .PAUSED then
    (false, "Performance guard: Trading paused due to poor performance")
  else (true, "OK")

/-- Folding a sequence of `record_trade` calls over a guard state. -/
def record_trades (g : PerformanceGuard) (trades : List (ℚ × Bool)) : PerformanceGuard :=
  trades.foldl (fun s t => record_trade s t.1 t.2) g

theorem record_trades_status (g : PerformanceGuard) (trades : List (ℚ × Bool)) :
    (record_trades g trades).current_status = g.current_status
    ∧ (record_trades g trades).enabled = g.enabled := by
  induction trades generalizing g with
  | nil => exact ⟨rfl, rfl⟩
  | cons t ts ih => exact (ih (record_trade g t.1 t.2))

theorem guard_update_equity_preserves (g : PerformanceGuard) (v : ℚ)
    (g1 : PerformanceGuard) (h : guard_update_equity g v = some g1) :
    g1.current_status = g.current_status
    ∧ g1.recovery_win_rate = g.recovery_win_rate
    ∧ g1.recovery_drawdown = g.recovery_drawdown
    ∧ g1.enabled = g.enabled := by
  unfold guard_update_equity at h
  rcases hinit : g.initial_equity with _ | i
  · simp only [hinit, Option.isNone_none, if_true] at h
    split at h <;> (injection h with h; subst h; simp)
  · simp only [hinit, Option.isNone_some, Bool.false_eq_true, if_false] at h
    rcases hp : g.peak_equity with _ | p
    · simp [hp] at h
    · simp only [hp] at h
      split at h <;> (injection h with h; subst h; simp)

/-- A concrete paused guard state (default config thresholds). -/
def pausedGuard : PerformanceGuard :=
  { enabled := true
    rolling_window_trades := 10
    win_rate_threshold_reduced := 2/5
    drawdown_threshold_reduced := 1/20
    win_rate_threshold_paused := 3/10
    drawdown_threshold_paused := 1/10
    recovery_win_rate := 9/20
    recovery_drawdown := 1/20
    recent_trades := [⟨-1, false⟩]
    peak_equity := none
    initial_equity := none
    current_status := .PAUSED }

theorem check_status_core_paused (g1 : PerformanceGuard)
    (hp : g1.current_status = .PAUSED) :
    (check_status_core g1).1.current_status = .PAUSED
    ∨ ((check_status_core g1).1.current_status = .NORMAL
        ∧ ∃ n, (get_recent_metrics g1).num_trades = some n ∧ 5 ≤ n
          ∧ g1.recovery_win_rate ≤ (get_recent_metrics g1).win_rate
          ∧ (get_recent_metrics g1).drawdown < g1.recovery_drawdown) := by
  unfold check_status_core
  dsimp only
  split
  · exact Or.inl hp
  · next pc hpc =>
    split
    · exact Or.inl rfl
    · split
      · exact Or.inl hp
      · next rc hrc =>
        split
        · rw [if_neg (by simp [hp])]
          exact Or.inl hp
        · rw [if_pos (Or.inl hp)]
          split
          · exact Or.inl hp
          · next rec hrec =>
            by_cases h : rec = true
            · subst h
              rw [if_pos rfl]
              refine Or.inr ⟨rfl, ?_⟩
              split at hrec
              · next hwin =>
                rcases hnt : (get_recent_metrics g1).num_trades with _ | n
                · simp [hnt] at hrec
                · rw [hnt] at hrec
                  simp only [Option.map_some'] at hrec
                  injection hrec with hrec
                  rw [Bool.and_eq_true, decide_eq_true_iff, decide_eq_true_iff] at hrec
                  exact ⟨n, rfl, hrec.1, hwin, hrec.2⟩
              · exact absurd hrec (by simp)
            · rw [if_neg h]
              exact Or.inl hp

/-- C3: once the guard is PAUSED, `should_allow_trade` denies every request;
recording trades (however favorable) never changes the status; and a
`check_status` call moves the status away from PAUSED only to NORMAL and only
when it observes win-rate ≥ `recovery_win_rate`, sample count ≥ 5, and
drawdown < `recovery_drawdown` on the equity-updated state. -/
theorem guard_pause_hysteresis (g : PerformanceGuard)
    (henabled : g.enabled = true) (hp : g.current_status = .PAUSED) :
    (should_allow_trade g).1 = false
    ∧ (∀ trades : List (ℚ × Bool),
        (record_trades g trades).current_status = .PAUSED
        ∧ (should_allow_trade (record_trades g trades)).1 = false)
    ∧ (∀ e : Option ℚ,
        (check_status g e).1.current_status ≠ .PAUSED →
          (check_status g e).1.current_status = .NORMAL
          ∧ ∃ g1 n,
              (match e with
               | some v => if v ≠ 0 then guard_update_equity g v else some g
               | none => some g) = some g1
              ∧ (get_recent_metrics g1).num_trades = some n
              ∧ 5 ≤ n
              ∧ g.recovery_win_rate ≤ (get_recent_metrics g1).win_rate
              ∧ (get_recent_metrics g1).drawdown < g.recovery_drawdown) := by
  refine ⟨by simp [should_allow_trade, henabled, hp], ?_, ?_⟩
  · intro trades
    obtain ⟨hst, hen⟩ := record_trades_status g trades
    rw [hp] at hst
    rw [henabled] at hen
    exact ⟨hst, by simp [should_allow_trade, hen, hst]⟩
  · intro e hne
    have hupd : ∀ g1, (match e with
        | some v => if v ≠ 0 then guard_update_equity g v else some g
        | none => some g) = some g1 →
        g1.current_status = .PAUSED
        ∧ g1.recovery_win_rate = g.recovery_win_rate
        ∧ g1.recovery_drawdown = g.recovery_drawdown := by
      intro g1 h1
      rcases e with _ | v
      · dsimp only at h1
        injection h1 with h1; subst h1; exact ⟨hp, rfl, rfl⟩
      · dsimp only at h1
        by_cases hv : v ≠ 0
        · rw [if_pos hv] at h1
          obtain ⟨h2, h3, h4, _⟩ := guard_update_equity_preserves g v g1 h1
          exact ⟨h2.trans hp, h3, h4⟩
        · rw [if_neg hv] at h1
          injection h1 with h1; subst h1; exact ⟨hp, rfl, rfl⟩
    unfold check_status at hne ⊢
    rw [if_neg (by simp [henabled])] at hne ⊢
    rcases heq : (match e with
        | some v => if v ≠ 0 then guard_update_equity g v else some g
        | none => some g) with _ | g1
    · rw [heq] at hne; exact absurd hp hne
    · rw [heq] at hne ⊢
      obtain ⟨hg1p, hg1wr, hg1dd⟩ := hupd g1 heq
      rcases check_status_core_paused g1 hg1p with h | ⟨hn, n, hnt, h5, hwr, hdd⟩
      · exact absurd h hne
      · exact ⟨hn, g1, n, rfl, hnt, h5, by rwa [hg1wr] at hwr, by rwa [hg1dd] at hdd⟩

/-- Closed witness for `guard_pause_hysteresis` at a concrete paused guard. -/
theorem guard_pause_hysteresis_witness :
    (should_allow_trade pausedGuard).1 = false := by
  have h := guard_pause_hysteresis pausedGuard rfl rfl
  exact h.1

/-! ## AdmissionQueue (`live_bot.py` `_process_signal` / `_process_signal_queue`) -/

/-- A `signal_entry` dict queued by `_process_signal` (timestamps as seconds
since the epoch; the fields not read by the queue logic itself —
`current_volatility`, `regime_multiplier` — are omitted, they are only passed
through to `_execute_trade`, which the drain model treats as an oracle). -/
structure QueuedSignal where
  symbol : String
  direction : String
  confidence : ℚ
  current_price : ℚ
  strength : ℚ
  timestamp : ℚ
deriving Repr, DecidableEq

/-- The Python sort key `(-confidence, -strength)` built in `_process_signal`. -/
def sigScore (s : QueuedSignal) : ℚ × ℚ := (-s.confidence, -s.strength)

/-- Python tuple `<` on score pairs (lexicographic). -/
def scoreLt (a b : ℚ × ℚ) : Prop := a.1 < b.1 ∨ (a.1 = b.1 ∧ a.2 < b.2)

instance : DecidableRel scoreLt := fun a b => by unfold scoreLt; infer_instance

/-- Python tuple `<=` on score pairs (lexicographic). -/
def scoreLe (a b : ℚ × ℚ) : Prop := a.1 < b.1 ∨ (a.1 = b.1 ∧ a.2 ≤ b.2)

instance : DecidableRel scoreLe := fun a b => by unfold scoreLe; infer_instance

/-- Ranking relation between queued signals: confidence descending, then
strength descending. -/
def sigLe (a b : QueuedSignal) : Prop := scoreLe (sigScore a) (sigScore b)

/-- The queue invariant: every entry ranks at or above all later entries. -/
def queueSorted (q : List QueuedSignal) : Prop := List.Pairwise sigLe q

theorem scoreLt_le {a b : ℚ × ℚ} (h : scoreLt a b) : scoreLe a b := by
  rcases h with h | ⟨h1, h2⟩
  · exact Or.inl h
  · exact Or.inr ⟨h1, le_of_lt h2⟩

theorem scoreLe_of_not_lt {a b : ℚ × ℚ} (h : ¬ scoreLt a b) : scoreLe b a := by
  unfold scoreLt at h
  push_neg at h
  rcases lt_trichotomy a.1 b.1 with h1 | h1 | h1
  · exact absurd h1 (not_lt.mpr h.1)
  · exact Or.inr ⟨h1.symm, h.2 h1⟩
  · exact Or.inl h1

theorem scoreLe_trans {a b c : ℚ × ℚ} (h1 : scoreLe a b) (h2 : scoreLe b c) :
    scoreLe a c := by
  rcases h1 with h1 | ⟨h1, h1'⟩ <;> rcases h2 with h2 | ⟨h2, h2'⟩
  · exact Or.inl (h1.trans h2)
  · exact Or.inl (h2 ▸ h1)
  · exact Or.inl (h1 ▸ h2)
  · exact Or.inr ⟨h1.trans h2, h1'.trans h2'⟩

/-- `bisect.bisect_left(queue_scores, new_score)`: on a list sorted by score
(the queue invariant maintained by every insertion) the binary search returns
the leftmost insertion point, i.e. the length of the strictly-smaller
prefix, which is how it is modelled. -/
def bisectLeft (q : List QueuedSignal) (x : ℚ × ℚ) : ℕ :=
  (q.takeWhile (fun a => decide (scoreLt (sigScore a) x))).length

/-- The sorted-insert in `_process_signal` (live_bot.py lines 764–769):
`insert_pos = bisect_left(queue_scores, new_score); queue.insert(insert_pos, entry)`. -/
def enqueue_signal (q : List QueuedSignal) (s : QueuedSignal) : List QueuedSignal :=
  let insert_pos := bisectLeft q (sigScore s)
  q.take insert_pos ++ [s] ++ q.drop insert_pos

theorem take_takeWhile_length (p : QueuedSignal → Bool) (l : List QueuedSignal) :
    l.take (l.takeWhile p).length = l.takeWhile p := by
  induction l with
  | nil => rfl
  | cons a t ih =>
    by_cases h : p a
    · simp [List.takeWhile_cons, h, ih]
    · simp [List.takeWhile_cons, h]

theorem drop_takeWhile_length (p : QueuedSignal → Bool) (l : List QueuedSignal) :
    l.drop (l.takeWhile p).length = l.dropWhile p := by
  induction l with
  | nil => rfl
  | cons a t ih =>
    by_cases h : p a
    · simp [List.takeWhile_cons, List.dropWhile_cons, h, ih]
    · simp [List.takeWhile_cons, List.dropWhile_cons, h]

theorem enqueue_signal_eq (q : List QueuedSignal) (s : QueuedSignal) :
    enqueue_signal q s
      = q.takeWhile (fun a => decide (scoreLt (sigScore a) (sigScore s))) ++ s ::
        q.dropWhile (fun a => decide (scoreLt (sigScore a) (sigScore s))) := by
  unfold enqueue_signal bisectLeft
  dsimp only
  rw [take_takeWhile_length, drop_takeWhile_length]
  simp

theorem sorted_dropWhile_ge (q : List QueuedSignal) (x : QueuedSignal)
    (hs : queueSorted q) :
    ∀ b ∈ q.dropWhile (fun a => decide (scoreLt (sigScore a) (sigScore x))),
      scoreLe (sigScore x) (sigScore b) := by
  induction q with
  | nil => intro b hb; simp at hb
  | cons a t ih =>
    intro b hb
    rw [List.dropWhile_cons] at hb
    by_cases h : scoreLt (sigScore a) (sigScore x)
    · rw [if_pos (by simpa using h)] at hb
      exact ih (List.Pairwise.of_cons hs) b hb
    · rw [if_neg (by simpa using h)] at hb
      rcases List.mem_cons.mp hb with rfl | hb
      · exact scoreLe_of_not_lt h
      · exact scoreLe_trans (scoreLe_of_not_lt h) (List.rel_of_pairwise_cons hs hb)

/-- C4 part 1: inserting into a sorted queue keeps it sorted, and every entry
placed before the new signal ranks strictly above it (so the new signal lands
before any existing entry with an equal `(confidence, strength)` key). -/
theorem enqueue_signal_sorted (q : List QueuedSignal) (s : QueuedSignal)
    (hs : queueSorted q) :
    queueSorted (enqueue_signal q s)
    ∧ ∀ a ∈ q.take (bisectLeft q (sigScore s)),
        scoreLt (sigScore a) (sigScore s) := by
  constructor
  · rw [enqueue_signal_eq]
    rw [queueSorted, List.pairwise_append]
    refine ⟨hs.sublist (List.takeWhile_sublist _), ?_, ?_⟩
    · rw [List.pairwise_cons]
      exact ⟨fun b hb => sorted_dropWhile_ge q s hs b hb,
        hs.sublist (List.dropWhile_sublist _)⟩
    · intro a ha b hb
      have hax : scoreLt (sigScore a) (sigScore s) := by
        have := List.mem_takeWhile_imp ha
        simpa using this
      rcases List.mem_cons.mp hb with rfl | hb
      · exact scoreLt_le hax
      · exact scoreLe_trans (scoreLt_le hax) (sorted_dropWhile_ge q s hs b hb)
  · intro a ha
    rw [bisectLeft, take_takeWhile_length] at ha
    have := List.mem_takeWhile_imp ha
    simpa using this

/-- Outcome of one `_execute_trade` call as observed by the drain loop.
`_execute_trade` catches every exception internally and returns a Bool; on
its permanent risk-rejection path (live_bot.py line 951) it additionally
rebinds `self.signal_queue`, filtering out every entry whose symbol matches
the rejected signal. -/
inductive ExecOutcome
  | success
  | failure
  | failureRemove
deriving Repr, DecidableEq

/-- Environment of one `_process_signal_queue` call: the configured
`max_open_positions`, oracles giving the length of the list returned by the
k-th `get_positions` call and the outcome of the i-th `_execute_trade` call,
and the TTL cutoff time (`now - 1 hour`). -/
structure DrainEnv where
  max_positions : ℤ
  posCount : ℕ → ℕ
  execOut : ℕ → ExecOutcome
  cutoff : ℚ

/-- The `for signal in self.signal_queue:` loop of `_process_signal_queue`
(live_bot.py lines 800–843). Arguments: the rest of the iteration, the next
`_execute_trade` oracle index, `executed_count`, the current
`available_slots`, the current binding of `self.signal_queue` (rebound by
`_execute_trade`'s permanent-rejection filter and read by the break-path
slice `self.signal_queue[executed_count:]`), and the `remaining_queue`
accumulator. Returns the final `remaining_queue` plus, as instrumentation,
the attempted and successfully executed signals in call order. -/
def drainLoop (env : DrainEnv) :
    List QueuedSignal → ℕ → ℕ → ℤ → List QueuedSignal →
    List QueuedSignal → List QueuedSignal → List QueuedSignal →
    List QueuedSignal × List QueuedSignal × List QueuedSignal
  | [], _, _, _, _, rem, att, exe => (rem, att, exe)
  | sig :: rest, ai, ec, slots, binding, rem, att, exe =>
    if slots ≤ (ec : ℤ) then
      drainLoop env rest ai ec slots binding (rem ++ [sig]) att exe
    else
      match env.execOut ai with
      | .failure =>
          drainLoop env rest (ai + 1) ec slots binding rem (att ++ [sig]) exe
      | .failureRemove =>
          drainLoop env rest (ai + 1) ec slots
            (binding.filter (fun s => s.symbol != sig.symbol)) rem (att ++ [sig]) exe
      | .success =>
          let ec' := ec + 1
          let slots' := env.max_positions - (env.posCount ec' : ℤ)
          if slots' ≤ 0 then
            (rem ++ binding.drop ec', att ++ [sig], exe ++ [sig])
          else
            drainLoop env rest (ai + 1) ec' slots' binding rem (att ++ [sig]) (exe ++ [sig])

/-- `TradingBot._process_signal_queue` (live_bot.py lines 780–853): early
return on an empty queue or no free slots (queue untouched, no TTL cleanup);
otherwise runs the drain loop and applies the TTL filter
(`s.timestamp > cutoff`) to the resulting queue. Returns
`(final queue, attempted, executed)`. -/
def process_signal_queue (env : DrainEnv) (queue : List QueuedSignal) :
    List QueuedSignal × List QueuedSignal × List QueuedSignal :=
  if queue = [] then (queue, [], [])
  else
    let slots0 := env.max_positions - (env.posCount 0 : ℤ)
    if slots0 ≤ 0 then (queue, [], [])
    else
      let r := drainLoop env queue 0 0 slots0 queue [] [] []
      (r.1.filter (fun s => decide (env.cutoff < s.timestamp)), r.2.1, r.2.2)

theorem drainLoop_skip (env : DrainEnv) (pending : List QueuedSignal)
    (ai ec : ℕ) (slots : ℤ) (binding rem att exe : List QueuedSignal)
    (h : slots ≤ (ec : ℤ)) :
    drainLoop env pending ai ec slots binding rem att exe = (rem ++ pending, att, exe) := by
  induction pending generalizing rem with
  | nil => simp [drainLoop]
  | cons sig rest ih =>
    rw [drainLoop, if_pos h, ih (rem ++ [sig])]
    simp

theorem drainLoop_exec_le (env : DrainEnv)
    (hmono : ∀ k, env.posCount 0 ≤ env.posCount k)
    (pending : List QueuedSignal) :
    ∀ (ai ec : ℕ) (slots : ℤ) (binding rem att exe : List QueuedSignal),
      slots ≤ env.max_positions - (env.posCount 0 : ℤ) →
      (exe.length : ℤ) = ec →
      ((drainLoop env pending ai ec slots binding rem att exe).2.2.length : ℤ)
        ≤ max (ec : ℤ) (env.max_positions - (env.posCount 0 : ℤ)) := by
  induction pending with
  | nil =>
    intro ai ec slots binding rem att exe _ hec
    rw [drainLoop]
    simp [hec]
  | cons sig rest ih =>
    intro ai ec slots binding rem att exe hslots hec
    rw [drainLoop]
    by_cases hskip : slots ≤ (ec : ℤ)
    · rw [if_pos hskip]
      exact ih ai ec slots binding (rem ++ [sig]) att exe hslots hec
    · rw [if_neg hskip]
      push_neg at hskip
      have hstep : (ec : ℤ) + 1 ≤ env.max_positions - (env.posCount 0 : ℤ) := by
        omega
      rcases hout : env.execOut ai with _ | _ | _
      · simp only [hout]
        have hcap : (ec : ℤ) + 1 ≤ max (ec : ℤ) (env.max_positions - (env.posCount 0 : ℤ)) := by
          exact le_trans hstep (le_max_right _ _)
        by_cases hbrk : env.max_positions - (env.posCount (ec + 1) : ℤ) ≤ 0
        · rw [if_pos hbrk]
          simpa [hec] using hcap
        · rw [if_neg hbrk]
          have hmono' : env.max_positions - (env.posCount (ec + 1) : ℤ)
              ≤ env.max_positions - (env.posCount 0 : ℤ) := by
            have := hmono (ec + 1)
            omega
          have := ih (ai + 1) (ec + 1) (env.max_positions - (env.posCount (ec + 1) : ℤ))
            binding rem (att ++ [sig]) (exe ++ [sig]) hmono' (by simp [hec])
          refine le_trans this ?_
          have : max ((ec : ℤ) + 1) (env.max_positions - (env.posCount 0 : ℤ))
              = env.max_positions - (env.posCount 0 : ℤ) := max_eq_right hstep
          rw [show (((ec : ℕ) + 1 : ℕ) : ℤ) = (ec : ℤ) + 1 by push_cast; ring, this]
          exact le_max_right _ _
      · simp only [hout]
        exact ih (ai + 1) ec slots binding rem (att ++ [sig]) exe hslots hec
      · simp only [hout]
        exact ih (ai + 1) ec slots (binding.filter (fun s => s.symbol != sig.symbol))
          rem (att ++ [sig]) exe hslots hec

/-- C2 (amended): provided every mid-drain `get_positions` observation
reports at least as many open positions as the observation at the start of
the call (the exchange does not lose positions mid-drain), the number of
orders successfully placed during a single `_process_signal_queue` call is at
most `max 0 (max_open_positions - openPositionCount)` for the count observed
at the start. -/
theorem drain_admission_bound (env : DrainEnv) (queue : List QueuedSignal)
    (hmono : ∀ k, env.posCount 0 ≤ env.posCount k) :
    ((process_signal_queue env queue).2.2.length : ℤ)
      ≤ max 0 (env.max_positions - (env.posCount 0 : ℤ)) := by
  unfold process_signal_queue
  by_cases hq : queue = []
  · rw [if_pos hq]
    simp
  · rw [if_neg hq]
    dsimp only
    by_cases hs : env.max_positions - (env.posCount 0 : ℤ) ≤ 0
    · rw [if_pos hs]
      simp
    · rw [if_neg hs]
      exact drainLoop_exec_le env hmono queue 0 0 _ queue [] [] [] le_rfl (by simp)

/-- Closed witness for `drain_admission_bound`. -/
theorem drain_admission_bound_witness :
    ((process_signal_queue ⟨1, fun _ => 0, fun _ => .success, 0⟩
        [⟨"AAAUSDT", "LONG", 1, 100, 1, 10⟩]).2.2.length : ℤ)
      ≤ max 0 ((1 : ℤ) - ((0 : ℕ) : ℤ)) :=
  drain_admission_bound ⟨1, fun _ => 0, fun _ => .success, 0⟩
    [⟨"AAAUSDT", "LONG", 1, 100, 1, 10⟩] (fun _ => le_refl 0)

/-- A drain environment in which the exchange reports fewer open positions
mid-drain than at the start of the call (two positions were closed
externally while the drain was running). -/
def drainCexEnv : DrainEnv :=
  ⟨2, fun k => if k = 0 then 1 else 0, fun _ => .success, 0⟩

/-- C2 counterexample: with one open position at the start of the call
(bound `max 0 (2 - 1) = 1`) but a mid-drain `get_positions` observation of
zero open positions, the code places 2 orders in a single
`_process_signal_queue` call, exceeding the claimed bound. -/
theorem drain_admission_bound_cex :
    ((process_signal_queue drainCexEnv
        [⟨"AAAUSDT", "LONG", 1, 100, 1, 10⟩, ⟨"BBBUSDT", "LONG", 1, 100, 1, 10⟩]).2.2.length : ℤ)
        = 2
    ∧ ¬ (((process_signal_queue drainCexEnv
        [⟨"AAAUSDT", "LONG", 1, 100, 1, 10⟩, ⟨"BBBUSDT", "LONG", 1, 100, 1, 10⟩]).2.2.length : ℤ)
          ≤ max 0 (drainCexEnv.max_positions - (drainCexEnv.posCount 0 : ℤ))) := by
  constructor
  · rfl
  · decide

theorem drainLoop_attempted_prefix (env : DrainEnv) (pending : List QueuedSignal) :
    ∀ (ai ec : ℕ) (slots : ℤ) (binding rem att exe : List QueuedSignal),
      ∃ k, (drainLoop env pending ai ec slots binding rem att exe).2.1
        = att ++ pending.take k := by
  induction pending with
  | nil =>
    intro ai ec slots binding rem att exe
    exact ⟨0, by simp [drainLoop]⟩
  | cons sig rest ih =>
    intro ai ec slots binding rem att exe
    rw [drainLoop]
    by_cases hskip : slots ≤ (ec : ℤ)
    · rw [if_pos hskip, drainLoop_skip env rest ai ec slots binding (rem ++ [sig]) att exe hskip]
      exact ⟨0, by simp⟩
    · rw [if_neg hskip]
      rcases hout : env.execOut ai with _ | _ | _ <;> simp only [hout]
      · by_cases hbrk : env.max_positions - (env.posCount (ec + 1) : ℤ) ≤ 0
        · rw [if_pos hbrk]
          exact ⟨1, by simp⟩
        · rw [if_neg hbrk]
          obtain ⟨k, hk⟩ := ih (ai + 1) (ec + 1) (env.max_positions - (env.posCount (ec + 1) : ℤ))
            binding rem (att ++ [sig]) (exe ++ [sig])
          exact ⟨k + 1, by simp [hk]⟩
      · obtain ⟨k, hk⟩ := ih (ai + 1) ec slots binding rem (att ++ [sig]) exe
        exact ⟨k + 1, by simp [hk]⟩
      · obtain ⟨k, hk⟩ := ih (ai + 1) ec slots (binding.filter (fun s => s.symbol != sig.symbol))
          rem (att ++ [sig]) exe
        exact ⟨k + 1, by simp [hk]⟩

/-- C4: (1) `_process_signal`'s bisect insertion keeps the queue sorted by
`(confidence desc, strength desc)` and places the new signal before every
existing entry with an equal key (all entries before the insertion point rank
strictly higher); (2) a drain call attempts a prefix of the queue in queue
order, so in a sorted queue a signal with lower confidence is attempted only
if every signal with strictly higher confidence sits at an earlier position
that was also attempted — the higher-confidence signal is attempted strictly
first. -/
theorem signal_queue_rank_ordering (q : List QueuedSignal) (s : QueuedSignal)
    (env : DrainEnv) (hs : queueSorted q) :
    (queueSorted (enqueue_signal q s)
      ∧ ∀ a ∈ q.take (bisectLeft q (sigScore s)),
          scoreLt (sigScore a) (sigScore s))
    ∧ (∃ k, (process_signal_queue env q).2.1 = q.take k)
    ∧ (∀ i j (hi : i < q.length) (hj : j < q.length),
        (q.get ⟨j, hj⟩).confidence < (q.get ⟨i, hi⟩).confidence →
        ∀ k, (process_signal_queue env q).2.1 = q.take k → j < k →
          i < j ∧ i < k) := by
  refine ⟨enqueue_signal_sorted q s hs, ?_, ?_⟩
  · unfold process_signal_queue
    by_cases hq : q = []
    · rw [if_pos hq]
      exact ⟨0, by simp⟩
    · rw [if_neg hq]
      dsimp only
      by_cases hs0 : env.max_positions - (env.posCount 0 : ℤ) ≤ 0
      · rw [if_pos hs0]
        exact ⟨0, by simp⟩
      · rw [if_neg hs0]
        obtain ⟨k, hk⟩ := drainLoop_attempted_prefix env q 0 0 _ q [] [] []
        exact ⟨k, by simpa using hk⟩
  · intro i j hi hj hconf k _ hjk
    have hij : i < j := by
      rcases lt_trichotomy i j with h | h | h
      · exact h
      · subst h
        exact absurd hconf (lt_irrefl _)
      · exfalso
        have hpair := List.pairwise_iff_get.mp hs ⟨j, hj⟩ ⟨i, hi⟩ h
        rcases hpair with hlt | ⟨heq, _⟩
        · simp only [sigScore] at hlt
          exact absurd hconf (by simp at hlt ⊢; linarith)
        · simp only [sigScore, neg_inj] at heq
          exact absurd hconf (by rw [heq]; exact lt_irrefl _)
    exact ⟨hij, lt_trans hij hjk⟩

/-- Closed witness for `signal_queue_rank_ordering`: inserting into a
concrete sorted one-element queue keeps it sorted. -/
theorem signal_queue_rank_ordering_witness :
    queueSorted (enqueue_signal [⟨"AAAUSDT", "LONG", 1, 100, 1, 10⟩]
      ⟨"BBBUSDT", "LONG", 1, 100, 1, 10⟩) :=
  (signal_queue_rank_ordering [⟨"AAAUSDT", "LONG", 1, 100, 1, 10⟩]
    ⟨"BBBUSDT", "LONG", 1, 100, 1, 10⟩ ⟨1, fun _ => 0, fun _ => .success, 0⟩
    (List.pairwise_singleton _ _)).1.1

/-- The environment for the executed-signal-requeued bug: one position slot,
no open positions at the start, one after the first successful order; the
first `_execute_trade` call fails without touching the queue (e.g. the order
is rejected by the exchange), the second succeeds. -/
def requeueBugEnv : DrainEnv :=
  ⟨1, fun k => if k = 0 then 0 else 1,
   fun i => if i = 0 then .failure else .success, 0⟩

/-- C6 (code bug): after a dropped signal followed by a success that exhausts
the free slots, the break path `remaining_queue.extend(self.signal_queue[executed_count:])`
slices the queue at `executed_count` (1) instead of the loop position (2), so
the successfully executed second signal is re-added to the queue: the final
queue equals `[sigB]` even though `sigB`'s execution succeeded in this pass. -/
theorem executed_signal_requeued_bug :
    (process_signal_queue requeueBugEnv
        [⟨"AAAUSDT", "LONG", 1, 100, 1, 10⟩, ⟨"BBBUSDT", "LONG", 1, 100, 1, 10⟩]).2.2
      = [⟨"BBBUSDT", "LONG", 1, 100, 1, 10⟩]
    ∧ (process_signal_queue requeueBugEnv
        [⟨"AAAUSDT", "LONG", 1, 100, 1, 10⟩, ⟨"BBBUSDT", "LONG", 1, 100, 1, 10⟩]).1
      = [⟨"BBBUSDT", "LONG", 1, 100, 1, 10⟩]
    ∧ (⟨"BBBUSDT", "LONG", 1, 100, 1, 10⟩ : QueuedSignal)
        ∈ (process_signal_queue requeueBugEnv
            [⟨"AAAUSDT", "LONG", 1, 100, 1, 10⟩, ⟨"BBBUSDT", "LONG", 1, 100, 1, 10⟩]).1 := by
  refine ⟨rfl, ?_, ?_⟩ <;> decide

/-- A signal enqueued at epoch time 0 (more than the 1-hour TTL before the
fresh signal's enqueue time 7200). -/
def staleSig : QueuedSignal := ⟨"OLDUSDT", "LONG", 1, 100, 1, 0⟩

/-- A signal enqueued at epoch time 7200, when the TTL cutoff is 3600. -/
def freshSig : QueuedSignal := ⟨"NEWUSDT", "LONG", 1, 100, 2, 7200⟩

/-- A drain environment with no free position slots and TTL cutoff 3600. -/
def fullSlotsEnv : DrainEnv := ⟨1, fun _ => 1, fun _ => .failure, 3600⟩

/-- C9 counterexample: the bisect insertion performs no TTL expiry, so at the
moment the fresh signal is inserted the stale entry (older than the TTL) is
still in the queue; and a subsequent drain with no free slots returns early,
before the TTL cleanup, so the stale entry persists even after draining. -/
theorem enqueue_no_ttl_cex :
    staleSig.timestamp < fullSlotsEnv.cutoff
    ∧ staleSig ∈ enqueue_signal [staleSig] freshSig
    ∧ (process_signal_queue fullSlotsEnv (enqueue_signal [staleSig] freshSig)).1
        = enqueue_signal [staleSig] freshSig
    ∧ staleSig ∈ (process_signal_queue fullSlotsEnv (enqueue_signal [staleSig] freshSig)).1 := by
  refine ⟨?_, ?_, ?_, ?_⟩ <;> decide

/-- C9 (amended): stale entries are expired by the TTL filter at the end of a
drain pass that passes the free-slot check, not by enqueue: whenever
`_process_signal_queue` runs on a nonempty queue with at least one free slot,
no entry at or below the TTL cutoff remains in the resulting queue. -/
theorem drain_ttl_cleanup (env : DrainEnv) (q : List QueuedSignal)
    (hq : q ≠ []) (hslots : ¬ env.max_positions - (env.posCount 0 : ℤ) ≤ 0) :
    ∀ s ∈ (process_signal_queue env q).1, env.cutoff < s.timestamp := by
  intro s hsmem
  unfold process_signal_queue at hsmem
  rw [if_neg hq] at hsmem
  dsimp only at hsmem
  rw [if_neg hslots] at hsmem
  have := List.of_mem_filter hsmem
  simpa using this

/-- Closed witness for `drain_ttl_cleanup`: after a drain pass with a free
slot, the stale entry is no longer in the queue. -/
theorem drain_ttl_cleanup_witness :
    staleSig ∉ (process_signal_queue ⟨1, fun _ => 0, fun _ => .failure, 3600⟩ [staleSig]).1 :=
  fun h =>
    absurd (drain_ttl_cleanup ⟨1, fun _ => 0, fun _ => .failure, 3600⟩ [staleSig]
      (by simp) (by norm_num) staleSig h) (by norm_num [staleSig])

/-! ## ExecutionGateway retries (`src/execution/bybit_client.py`) -/

/-- One attempt of a wrapped exchange call as seen by the retry loop: the
attempt body either produced a value of the call's result type or the
underlying session call raised (every exception is caught by the
`except (TimeoutError, ConnectionError, Exception)` clause). -/
inductive Attempt (α : Type)
  | ret (a : α)
  | exn
deriving Repr, DecidableEq

/-- Mapping the pure result-construction part of an attempt body over the
oracle outcome. -/
def Attempt.map (f : α → β) : Attempt α → Attempt β
  | .ret a => .ret (f a)
  | .exn => .exn

/-- The backoff delay slept before retrying attempt `i`
(`wait_time = 2 * (attempt + 1)` in every BybitClient retry loop). -/
def waitTime (i : ℕ) : ℕ := 2 * (i + 1)

/-- The retry loop shared by every BybitClient operation, started at attempt
index `i`:
`for attempt in range(max_retries): try: return <body> except ...: sleep and
continue, or on the last attempt return the typed failure value`, followed by
a final `return <failure value>`. Returns the result, the number of attempts
made, and the list of backoff delays slept. -/
def retryFrom (maxR : ℕ) (body : ℕ → Attempt α) (failVal : α) (i : ℕ) :
    α × ℕ × List ℕ :=
  if h : maxR ≤ i then (failVal, 0, [])
  else
    match body i with
    | .ret a => (a, 1, [])
    | .exn =>
        if i < maxR - 1 then
          let r := retryFrom maxR body failVal (i + 1)
          (r.1, r.2.1 + 1, waitTime i :: r.2.2)
        else (failVal, 1, [])
termination_by maxR - i
decreasing_by omega

/-- The retry loop from attempt 0. -/
def retryLoop (maxR : ℕ) (body : ℕ → Attempt α) (failVal : α) : α × ℕ × List ℕ :=
  retryFrom maxR body failVal 0

/-- One row of `result['list']` in a wallet-balance response. -/
structure AccountRow where
  totalEquity : ℚ
  totalAvailableBalance : ℚ
deriving Repr, DecidableEq

/-- A wallet-balance API response. -/
structure BalanceResp where
  retCode : ℤ
  rows : List AccountRow
deriving Repr, DecidableEq

/-- The dict built by `get_account_balance` (`currency` is the constant
`"USDT"`); `none` models the empty dict returned on an API error or an empty
account list. -/
structure Balance where
  total_equity : ℚ
  available_balance : ℚ
deriving Repr, DecidableEq

/-- The response-processing part of one `get_account_balance` attempt. -/
def parse_balance (r : BalanceResp) : Option Balance :=
  if r.retCode ≠ 0 then none
  else
    match r.rows with
    | a :: _ => some ⟨a.totalEquity, a.totalAvailableBalance⟩
    | [] => none

/-- `BybitClient.get_account_balance` over an oracle for the successive
session responses. -/
def get_account_balance (maxR : ℕ) (oracle : ℕ → Attempt BalanceResp) :
    Option Balance × ℕ × List ℕ :=
  retryLoop maxR (fun i => (oracle i).map parse_balance) none

/-- One row of `result['list']` in a positions response (`size := none`
models the empty-string/`None` size skipped by the parser). -/
structure RawPosition where
  symbol : String
  side : String
  size : Option ℚ
  avgPrice : ℚ
  markPrice : ℚ
  leverage : ℚ
  unrealisedPnl : ℚ
  liqPrice : ℚ
deriving Repr, DecidableEq

/-- A positions API response. -/
structure PositionsResp where
  retCode : ℤ
  rows : List RawPosition
deriving Repr, DecidableEq

/-- A parsed position dict as built by `get_positions`. -/
structure ParsedPosition where
  symbol : String
  side : String
  size : ℚ
  entry_price : ℚ
  mark_price : ℚ
  leverage : ℚ
  unrealized_pnl : ℚ
  liquidation_price : ℚ
deriving Repr, DecidableEq

/-- The response-processing part of one `get_positions` attempt: `[]` on an
API error, otherwise the non-zero-size rows. -/
def parse_positions (r : PositionsResp) : List ParsedPosition :=
  if r.retCode ≠ 0 then []
  else
    r.rows.filterMap fun p =>
      match p.size with
      | none => none
      | some sz =>
          if sz ≠ 0 then
            some ⟨p.symbol, p.side, sz, p.avgPrice, p.markPrice, p.leverage,
              p.unrealisedPnl, p.liqPrice⟩
          else none

/-- `BybitClient.get_positions` over a session-response oracle. -/
def get_positions (maxR : ℕ) (oracle : ℕ → Attempt PositionsResp) :
    List ParsedPosition × ℕ × List ℕ :=
  retryLoop maxR (fun i => (oracle i).map parse_positions) []

/-- One row of `result['list']` in an open-orders response (optional fields
model the `... if order.get(...) else None` guards). -/
structure RawOrder where
  orderId : String
  symbol : String
  side : String
  orderType : String
  qty : ℚ
  price : Option ℚ
  stopLoss : Option ℚ
  takeProfit : Option ℚ
  triggerPrice : Option ℚ
  orderStatus : String
deriving Repr, DecidableEq

/-- An open-orders API response. -/
structure OrdersResp where
  retCode : ℤ
  rows : List RawOrder
deriving Repr, DecidableEq

/-- The response-processing part of one `get_open_orders` attempt. -/
def parse_orders (r : OrdersResp) : List RawOrder :=
  if r.retCode ≠ 0 then [] else r.rows

/-- `BybitClient.get_open_orders` over a session-response oracle. -/
def get_open_orders (maxR : ℕ) (oracle : ℕ → Attempt OrdersResp) :
    List RawOrder × ℕ × List ℕ :=
  retryLoop maxR (fun i => (oracle i).map parse_orders) []

/-- Outcome of one `place_order` attempt body. The lot-size rounding
arithmetic (instrument-info fetch, qty-step rounding) determines only which
of these branches is taken and is folded into the oracle: `belowMin` is the
`rounded_qty < min_qty → return None` path, `resp` is a session response. -/
inductive PlaceAttemptOutcome
  | exn
  | belowMin
  | resp (retCode : ℤ) (orderId : String)
deriving Repr, DecidableEq

/-- The order dict returned by a successful `place_order`
(`status` is the constant `"New"`). -/
structure OrderResult where
  order_id : String
  symbol : String
  side : String
  qty : ℚ
deriving Repr, DecidableEq

/-- The body of one `place_order` attempt. -/
def place_order_body (symbol side : String) (qty : ℚ) (o : PlaceAttemptOutcome) :
    Attempt (Option OrderResult) :=
  match o with
  | .exn => .exn
  | .belowMin => .ret none
  | .resp rc oid => .ret (if rc ≠ 0 then none else some ⟨oid, symbol, side, qty⟩)

/-- `BybitClient.place_order` over a per-attempt oracle. -/
def place_order (maxR : ℕ) (symbol side : String) (qty : ℚ)
    (oracle : ℕ → PlaceAttemptOutcome) : Option OrderResult × ℕ × List ℕ :=
  retryLoop maxR (fun i => place_order_body symbol side qty (oracle i)) none

/-- `BybitClient.cancel_order` over a session-response oracle (the response
reduced to its `retCode`): `True` on `retCode = 0`, `False` on an API error,
`False` after exhausting retries. -/
def cancel_order (maxR : ℕ) (oracle : ℕ → Attempt ℤ) : Bool × ℕ × List ℕ :=
  retryLoop maxR (fun i => (oracle i).map (fun rc => decide (rc = 0))) false

theorem retryFrom_attempts_le (maxR : ℕ) (body : ℕ → Attempt α) (failVal : α) :
    ∀ n i, maxR - i ≤ n → (retryFrom maxR body failVal i).2.1 ≤ maxR - i := by
  intro n
  induction n with
  | zero =>
    intro i h0
    rw [retryFrom, dif_pos (by omega)]
    exact Nat.zero_le _
  | succ n ihn =>
    intro i hsi
    rw [retryFrom]
    by_cases h : maxR ≤ i
    · rw [dif_pos h]
      exact Nat.zero_le _
    · rw [dif_neg h]
      rcases body i with a | _
      · show 1 ≤ maxR - i
        omega
      · by_cases h2 : i < maxR - 1
        · rw [if_pos h2]
          have hih := ihn (i + 1) (by omega)
          show (retryFrom maxR body failVal (i + 1)).2.1 + 1 ≤ maxR - i
          omega
        · rw [if_neg h2]
          show 1 ≤ maxR - i
          omega

theorem retryFrom_all_exn (maxR : ℕ) (body : ℕ → Attempt α) (failVal : α) :
    ∀ n i, maxR - i ≤ n → i < maxR → (∀ j, i ≤ j → j < maxR → body j = .exn) →
      retryFrom maxR body failVal i
        = (failVal, maxR - i, (List.range' i (maxR - 1 - i)).map waitTime) := by
  intro n
  induction n with
  | zero => intro i h0 hi _; omega
  | succ n ihn =>
    intro i _ hi hall
    rw [retryFrom, dif_neg (by omega), hall i le_rfl hi]
    by_cases h2 : i < maxR - 1
    · rw [if_pos h2]
      rw [ihn (i + 1) (by omega) (by omega) (fun j hj1 hj2 => hall j (by omega) hj2)]
      show (failVal, (maxR - (i + 1)) + 1, waitTime i ::
        (List.range' (i + 1) (maxR - 1 - (i + 1))).map waitTime) = _
      have hr : maxR - 1 - i = (maxR - 1 - (i + 1)) + 1 := by omega
      have h3 : maxR - (i + 1) + 1 = maxR - i := by omega
      rw [hr, List.range'_succ, List.map_cons, h3]
    · rw [if_neg h2]
      have h3 : maxR - i = 1 := by omega
      have h4 : maxR - 1 - i = 0 := by omega
      rw [h3, h4]
      simp

theorem retryFrom_first_ret (maxR : ℕ) (body : ℕ → Attempt α) (failVal : α) :
    ∀ n i k a, maxR - i ≤ n → i ≤ k → k < maxR →
      (∀ j, i ≤ j → j < k → body j = .exn) →
      body k = .ret a → (retryFrom maxR body failVal i).1 = a := by
  intro n
  induction n with
  | zero => intro i k a h0 hik hk _ _; omega
  | succ n ihn =>
    intro i k a _ hik hk hall hbody
    rw [retryFrom, dif_neg (by omega)]
    rcases Nat.eq_or_lt_of_le hik with rfl | hlt
    · rw [hbody]
    · rw [hall i le_rfl hlt, if_pos (by omega)]
      show (retryFrom maxR body failVal (i + 1)).1 = a
      exact ihn (i + 1) k a (by omega) (by omega) hk
        (fun j hj1 hj2 => hall j (by omega) hj2) hbody

/-- C8: every wrapped exchange operation makes at most `max_retries`
attempts; an attempt that raises is retried (a later successful attempt's
response is returned); exhausting all attempts yields the operation's typed
failure value (empty dict for balance, `[]` for positions and open orders,
`None` for `place_order`, `False` for `cancel_order`) with the backoff delays
`2·(i+1)` slept in between, and never a propagated exception (the loop
consumes every oracle exception by construction of the model). -/
theorem exchange_retry_semantics (maxR : ℕ)
    (obal : ℕ → Attempt BalanceResp) (opos : ℕ → Attempt PositionsResp)
    (oord : ℕ → Attempt OrdersResp) (opl : ℕ → PlaceAttemptOutcome)
    (ocan : ℕ → Attempt ℤ) (symbol side : String) (qty : ℚ)
    (hbal : ∀ i, i < maxR → obal i = .exn)
    (hpos : ∀ i, i < maxR → opos i = .exn)
    (hord : ∀ i, i < maxR → oord i = .exn)
    (hpl : ∀ i, i < maxR → opl i = .exn)
    (hcan : ∀ i, i < maxR → ocan i = .exn) :
    ((get_account_balance maxR obal).2.1 ≤ maxR
      ∧ (get_positions maxR opos).2.1 ≤ maxR
      ∧ (get_open_orders maxR oord).2.1 ≤ maxR
      ∧ (place_order maxR symbol side qty opl).2.1 ≤ maxR
      ∧ (cancel_order maxR ocan).2.1 ≤ maxR)
    ∧ ((get_account_balance maxR obal).1 = none
      ∧ (get_positions maxR opos).1 = []
      ∧ (get_open_orders maxR oord).1 = []
      ∧ (place_order maxR symbol side qty opl).1 = none
      ∧ (cancel_order maxR ocan).1 = false)
    ∧ ((get_account_balance maxR obal).2.2 = (List.range (maxR - 1)).map waitTime
      ∧ (place_order maxR symbol side qty opl).2.2 = (List.range (maxR - 1)).map waitTime)
    ∧ (∀ (obal' : ℕ → Attempt BalanceResp) (k : ℕ) (r : BalanceResp),
        k < maxR → (∀ j, j < k → obal' j = .exn) → obal' k = .ret r →
          (get_account_balance maxR obal').1 = parse_balance r) := by
  have hfail : ∀ {β : Type} (b : ℕ → Attempt β) (fv : β),
      (∀ i, i < maxR → b i = .exn) →
      retryLoop maxR b fv = (fv, maxR, (List.range (maxR - 1)).map waitTime)
        ∨ maxR = 0 := by
    intro β b fv h
    by_cases hm : maxR = 0
    · exact Or.inr hm
    · left
      rw [retryLoop, retryFrom_all_exn maxR b fv maxR 0 (by omega) (by omega)
        (fun j _ hj => h j hj), List.range_eq_range']
      simp
  have hbal' : ∀ i, i < maxR → (fun i => (obal i).map parse_balance) i = Attempt.exn :=
    fun i hi => by simp only [hbal i hi]; rfl
  have hpos' : ∀ i, i < maxR → (fun i => (opos i).map parse_positions) i = Attempt.exn :=
    fun i hi => by simp only [hpos i hi]; rfl
  have hord' : ∀ i, i < maxR → (fun i => (oord i).map parse_orders) i = Attempt.exn :=
    fun i hi => by simp only [hord i hi]; rfl
  have hpl' : ∀ i, i < maxR →
      (fun i => place_order_body symbol side qty (opl i)) i = Attempt.exn :=
    fun i hi => by simp only [hpl i hi]; rfl
  have hcan' : ∀ i, i < maxR →
      (fun i => (ocan i).map (fun rc => decide (rc = 0))) i = Attempt.exn :=
    fun i hi => by simp only [hcan i hi]; rfl
  refine ⟨⟨?_, ?_, ?_, ?_, ?_⟩, ⟨?_, ?_, ?_, ?_, ?_⟩, ⟨?_, ?_⟩, ?_⟩
  · exact (retryFrom_attempts_le maxR _ none maxR 0 (by omega)).trans (by omega)
  · exact (retryFrom_attempts_le maxR _ [] maxR 0 (by omega)).trans (by omega)
  · exact (retryFrom_attempts_le maxR _ [] maxR 0 (by omega)).trans (by omega)
  · exact (retryFrom_attempts_le maxR _ none maxR 0 (by omega)).trans (by omega)
  · exact (retryFrom_attempts_le maxR _ false maxR 0 (by omega)).trans (by omega)
  · rcases hfail _ none hbal' with h | h
    · rw [get_account_balance, h]
    · rw [get_account_balance, retryLoop, retryFrom, dif_pos (by omega)]
  · rcases hfail _ [] hpos' with h | h
    · rw [get_positions, h]
    · rw [get_positions, retryLoop, retryFrom, dif_pos (by omega)]
  · rcases hfail _ [] hord' with h | h
    · rw [get_open_orders, h]
    · rw [get_open_orders, retryLoop, retryFrom, dif_pos (by omega)]
  · rcases hfail _ none hpl' with h | h
    · rw [place_order, h]
    · rw [place_order, retryLoop, retryFrom, dif_pos (by omega)]
  · rcases hfail _ false hcan' with h | h
    · rw [cancel_order, h]
    · rw [cancel_order, retryLoop, retryFrom, dif_pos (by omega)]
  · rcases hfail _ none hbal' with h | h
    · rw [get_account_balance, h]
    · rw [get_account_balance, retryLoop, retryFrom, dif_pos (by omega)]
      subst h
      simp
  · rcases hfail _ none hpl' with h | h
    · rw [place_order, h]
    · rw [place_order, retryLoop, retryFrom, dif_pos (by omega)]
      subst h
      simp
  · intro obal' k r hk hprev hret
    rw [get_account_balance, retryLoop]
    exact retryFrom_first_ret maxR _ none maxR 0 k (parse_balance r) (by omega)
      (by omega) hk (fun j _ hj => by simp only [hprev j hj]; rfl)
      (by simp only [hret]; rfl)

/-- Closed witness for `exchange_retry_semantics` with `max_retries = 3` and
every attempt raising. -/
theorem exchange_retry_semantics_witness :
    (get_account_balance 3 (fun _ => .exn)).1 = none
    ∧ (place_order 3 "BTCUSDT" "Buy" 1 (fun _ => .exn)).1 = none
    ∧ (cancel_order 3 (fun _ => .exn)).1 = false := by
  have h := exchange_retry_semantics 3 (fun _ => .exn) (fun _ => .exn) (fun _ => .exn)
    (fun _ => .exn) (fun _ => .exn) "BTCUSDT" "Buy" 1
    (fun _ _ => rfl) (fun _ _ => rfl) (fun _ _ => rfl) (fun _ _ => rfl) (fun _ _ => rfl)
  exact ⟨h.2.1.1, h.2.1.2.2.2.1, h.2.1.2.2.2.2⟩
/-! ## Trade execution (`live_bot.py` `_execute_trade`, `_close_position`) and
`RiskManager.check_risk_limits` -/

/-- Python `abs()` on a float. -/
def pyAbs (x : ℚ) : ℚ := if x < 0 then -x else x

theorem pyAbs_eq_abs (x : ℚ) : pyAbs x = |x| := by
  by_cases h : x < 0
  · rw [pyAbs, if_pos h, abs_of_neg h]
  · rw [pyAbs, if_neg h, abs_of_nonneg (not_lt.mp h)]

/-- The structured rejection reasons of `check_risk_limits` (the Python code
returns reason strings; `_execute_trade` string-matches `"Max open positions"`
and `"exceeds limit"`, each of which occurs in exactly one reason). -/
inductive RiskReason
  | ok
  | dailyLoss
  | drawdown
  | maxOpenPositions
  | invalidEntryPrice
  | sizeExceedsLimit
  | alreadyInPosition
deriving Repr, DecidableEq

/-- The RiskManager instance state and config read by `check_risk_limits` and
`update_account_state`. -/
structure RiskManagerState where
  max_position_size : ℚ
  max_daily_loss : ℚ
  max_drawdown : ℚ
  max_open_positions : ℕ
  daily_pnl : ℚ
  peak_equity : Option ℚ
  initial_equity : Option ℚ
deriving Repr, DecidableEq

/-- `RiskManager.check_risk_limits` (risk_manager.py lines 137–188).
`if self.peak_equity:` is Python truthiness (`None` and `0.0` falsy). -/
def check_risk_limits (rm : RiskManagerState) (equity : ℚ)
    (open_positions : List ParsedPosition) (symbol : String)
    (proposed_size : ℚ) (entry_price : Option ℚ) : Bool × RiskReason :=
  if rm.daily_pnl < -(pyAbs (equity * rm.max_daily_loss)) then (false, .dailyLoss)
  else if optTruthy rm.peak_equity
      ∧ rm.max_drawdown < (rm.peak_equity.getD 0 - equity) / rm.peak_equity.getD 0 then
    (false, .drawdown)
  else if rm.max_open_positions ≤ open_positions.length then (false, .maxOpenPositions)
  else
    match entry_price with
    | none => (false, .invalidEntryPrice)
    | some ep =>
      if ep ≤ 0 then (false, .invalidEntryPrice)
      else if equity * rm.max_position_size < proposed_size * ep then (false, .sizeExceedsLimit)
      else if open_positions.any (fun p => p.symbol == symbol) then (false, .alreadyInPosition)
      else (true, .ok)

/-- `RiskManager.update_account_state` (risk_manager.py lines 36–54); the
daily-PnL reset fires when the UTC date advanced past the reset boundary
(supplied as the flag `new_day`). `none` models the `TypeError` of comparing
a float against `peak_equity = None`, possible only from states with
`initial_equity` set but `peak_equity` unset; nothing is mutated there. -/
def rm_update_account_state (rm : RiskManagerState) (equity : ℚ) (new_day : Bool) :
    Option RiskManagerState :=
  let rm1 :=
    if rm.initial_equity.isNone then
      { rm with initial_equity := some equity, peak_equity := some equity }
    else rm
  match rm1.peak_equity with
  | none => none
  | some p =>
    let rm2 := if p < equity then { rm1 with peak_equity := some equity } else rm1
    some (if new_day then { rm2 with daily_pnl := 0 } else rm2)

/-- A tracked position dict (`self.positions[symbol]` in live_bot.py). -/
structure TrackedPos where
  entry_price : ℚ
  side : String
  qty : ℚ
  entry_time : Option ℚ
  stop_loss : ℚ
  take_profit : ℚ
  loaded_from_exchange : Bool
deriving Repr, DecidableEq

/-- Association-list lookup modelling a Python dict read. -/
def alistLookup (l : List (String × α)) (k : String) : Option α :=
  (l.find? (fun p => p.1 == k)).map (·.2)

/-- Association-list write modelling a Python dict assignment: overwrite in
place when the key exists, append otherwise. -/
def alistSet (l : List (String × α)) (k : String) (v : α) : List (String × α) :=
  if l.any (fun p => p.1 == k) then
    l.map (fun p => if p.1 == k then (k, v) else p)
  else l ++ [(k, v)]

/-- Association-list delete modelling a Python `del`. -/
def alistErase (l : List (String × α)) (k : String) : List (String × α) :=
  l.filter (fun p => p.1 != k)

/-- The mutable TradingBot state touched by trade execution. -/
structure BotState where
  positions : List (String × TrackedPos)
  symbol_last_trade_time : List (String × ℚ)
  signal_queue : List QueuedSignal
deriving Repr, DecidableEq

/-- Outcome of the `get_instruments_info` block inside `_execute_trade`:
`exn` is the exception path (fallback $5 minimum-notional check), `noData` a
response without usable rows (no adjustment at all), `info` a lot-size
filter. -/
inductive InstrInfoResult
  | exn
  | noData
  | info (minNotional qtyStep minOrderQty : ℚ)
deriving Repr, DecidableEq

/-- Python `int()` truncation toward zero. -/
def pyTrunc (x : ℚ) : ℤ := if 0 ≤ x then ⌊x⌋ else -⌊-x⌋

/-- Configuration and collaborator state read by `_execute_trade`. -/
structure ExecConfig where
  risk_cfg : RiskConfig
  rm : RiskManagerState
  guard_multiplier : ℚ
  portfolio_enabled : Bool
  portfolio_risk_limit : ℚ
  position_cooldown_hours : ℚ
  stop_loss_pct : ℚ
  take_profit_pct : ℚ
deriving Repr, DecidableEq

/-- Oracle results of the external calls one `_execute_trade` invocation
makes, plus the wall-clock time of the call. -/
structure ExecTradeEnv where
  now : ℚ
  new_day : Bool
  balance : Option Balance
  open_positions : List ParsedPosition
  instrument : InstrInfoResult
  place_result : Option OrderResult
deriving Repr, DecidableEq

/-- Result of one `_execute_trade` call: the returned Bool, whether
`place_order` was invoked at all, and the updated bot / risk-manager state. -/
structure ExecResult where
  success : Bool
  place_called : Bool
  st : BotState
  rm : RiskManagerState
deriving Repr, DecidableEq

/-- The min-notional / minimum-order-quantity adjustment block of
`_execute_trade` (live_bot.py lines 968–1027). Returns the adjusted size, or
`none` when the trade is rejected. -/
def adjust_for_exchange_min (cfg : ExecConfig) (rm1 : RiskManagerState)
    (equity : ℚ) (open_positions : List ParsedPosition) (symbol : String)
    (final_position_size current_price : ℚ) : InstrInfoResult → Option ℚ
  | .noData => some final_position_size
  | .info minNotional qtyStep minOrderQty =>
      let position_value := final_position_size * current_price
      let f1? :=
        if position_value < minNotional then
          let min_qty_needed := minNotional / current_price
          let increased := ((pyTrunc (min_qty_needed / qtyStep) + 1 : ℤ) : ℚ) * qtyStep
          let chk := check_risk_limits rm1 equity open_positions symbol increased
            (some current_price)
          if chk.1 = true ∨ chk.2 = .sizeExceedsLimit then some increased else none
        else some final_position_size
      match f1? with
      | none => none
      | some f1 => some (if f1 < minOrderQty then minOrderQty else f1)
  | .exn =>
      if final_position_size * current_price < 5 then none
      else some final_position_size

/-- `TradingBot._execute_trade` (live_bot.py lines 855–1087), as explicit
state passing over the oracles in `ExecTradeEnv`. Order of checks matches the
source: balance, positive equity, `update_account_state`, sizing,
guard/regime/portfolio multipliers, zero/minimum size, `check_risk_limits`
(with the queue filtered on permanent rejections other than max-positions),
the per-symbol cooldown (hours since `symbol_last_trade_time[symbol]`), the
exchange-minimum adjustment, then `place_order`; on success the position is
registered and `symbol_last_trade_time[symbol]` is set to the call time. -/
def execute_trade (cfg : ExecConfig) (st : BotState) (env : ExecTradeEnv)
    (symbol direction : String) (confidence current_price : ℚ)
    (current_volatility : Option ℚ) (regime_multiplier : ℚ) : ExecResult :=
  match env.balance with
  | none => ⟨false, false, st, cfg.rm⟩
  | some bal =>
    let equity := bal.total_equity
    if equity ≤ 0 then ⟨false, false, st, cfg.rm⟩
    else
      match rm_update_account_state cfg.rm equity env.new_day with
      | none => ⟨false, false, st, cfg.rm⟩
      | some rm1 =>
        match calculate_position_size cfg.risk_cfg equity confidence current_price
            current_volatility with
        | none => ⟨false, false, st, rm1⟩
        | some base_size =>
          let size1 := base_size * cfg.guard_multiplier * regime_multiplier
          let final0 :=
            if cfg.portfolio_enabled then
              min size1 (if 0 < current_price then cfg.portfolio_risk_limit / current_price
                         else size1)
            else size1
          if final0 ≤ 0 ∨ pyAbs final0 < 1 / 10000000000 then ⟨false, false, st, rm1⟩
          else if final0 < 1 / 1000 then ⟨false, false, st, rm1⟩
          else
            let chk := check_risk_limits rm1 equity env.open_positions symbol final0
              (some current_price)
            if chk.1 = false then
              let st' :=
                if chk.2 ≠ .maxOpenPositions then
                  { st with signal_queue :=
                      st.signal_queue.filter (fun s => s.symbol != symbol) }
                else st
              ⟨false, false, st', rm1⟩
            else
              let cooldownHit :=
                match alistLookup st.symbol_last_trade_time symbol with
                | some t => decide ((env.now - t) / 3600 < cfg.position_cooldown_hours)
                | none => false
              if cooldownHit then ⟨false, false, st, rm1⟩
              else
                match adjust_for_exchange_min cfg rm1 equity env.open_positions symbol
                    final0 current_price env.instrument with
                | none => ⟨false, false, st, rm1⟩
                | some final_size =>
                  let stop_loss :=
                    if direction == "LONG" then current_price * (1 - cfg.stop_loss_pct)
                    else current_price * (1 + cfg.stop_loss_pct)
                  let take_profit :=
                    if direction == "LONG" then current_price * (1 + cfg.take_profit_pct)
                    else current_price * (1 - cfg.take_profit_pct)
                  let side := if direction == "LONG" then "Buy" else "Sell"
                  match env.place_result with
                  | none => ⟨false, true, st, rm1⟩
                  | some _ =>
                      ⟨true, true,
                        { st with
                          positions := alistSet st.positions symbol
                            ⟨current_price, side, final_size, some env.now,
                              stop_loss, take_profit, false⟩,
                          symbol_last_trade_time :=
                            alistSet st.symbol_last_trade_time symbol env.now },
                        rm1⟩

/-- `TradingBot._close_position` (live_bot.py lines 1175–1231), restricted to
its effect on the tracked-position map and the cooldown map: fetches the
exchange position for the symbol (`fetched`), places a reduce-only close
order (outcome `orderOk`), and on success deletes the tracked entry and
reports the realized PnL (fed to `update_daily_pnl` / `record_trade` by the
caller). It never touches `symbol_last_trade_time`. -/
def close_position (st : BotState) (fetched : List ParsedPosition)
    (orderOk : Bool) (symbol : String) : BotState × Option ℚ :=
  match fetched with
  | [] => (st, none)
  | pos :: _ =>
    let exit_price := pos.mark_price
    if orderOk then
      match alistLookup st.positions symbol with
      | some tracked =>
        let pnl :=
          if pos.side == "Buy" then (exit_price - tracked.entry_price) * tracked.qty
          else (tracked.entry_price - exit_price) * tracked.qty
        ({ st with positions := alistErase st.positions symbol }, some pnl)
      | none => (st, none)
    else (st, none)

/-- C5 (amended): the per-symbol cooldown runs from the time the last order
for the symbol was successfully *placed* (`symbol_last_trade_time`, written
only at order placement): whenever `symbol_last_trade_time[symbol] = t0` and
`(now - t0)/3600 < position_cooldown_hours`, `_execute_trade` returns False
without calling `place_order`, and neither the tracked positions nor the
cooldown map change. -/
theorem cooldown_from_last_open (cfg : ExecConfig) (st : BotState) (env : ExecTradeEnv)
    (symbol direction : String) (confidence current_price : ℚ)
    (vol : Option ℚ) (regime : ℚ) (t0 : ℚ)
    (hlast : alistLookup st.symbol_last_trade_time symbol = some t0)
    (hcd : (env.now - t0) / 3600 < cfg.position_cooldown_hours) :
    (execute_trade cfg st env symbol direction confidence current_price vol regime).success
        = false
    ∧ (execute_trade cfg st env symbol direction confidence current_price vol
        regime).place_called = false
    ∧ (execute_trade cfg st env symbol direction confidence current_price vol
        regime).st.positions = st.positions
    ∧ (execute_trade cfg st env symbol direction confidence current_price vol
        regime).st.symbol_last_trade_time = st.symbol_last_trade_time := by
  unfold execute_trade
  simp only [hlast, decide_eq_true hcd, eq_self_iff_true, if_true]
  repeat' split
  all_goals exact ⟨rfl, rfl, rfl, rfl⟩

/-- Closed witness for `cooldown_from_last_open`: a symbol last traded at
time 0 is rejected again one hour later under an 8-hour cooldown. -/
theorem cooldown_from_last_open_witness :
    (execute_trade
        ⟨⟨3/200, 1/100, 1/10, ⟨false, 0, 0⟩⟩, ⟨1/10, 1/20, 3/20, 3, 0, none, none⟩,
          1, false, 0, 8, 3/200, 3/100⟩
        ⟨[], [("XUSDT", 0)], []⟩
        ⟨3600, false, some ⟨10000, 10000⟩, [], .noData, some ⟨"o", "XUSDT", "Buy", 10⟩⟩
        "XUSDT" "LONG" (1/2) 100 none 1).success = false :=
  (cooldown_from_last_open
    ⟨⟨3/200, 1/100, 1/10, ⟨false, 0, 0⟩⟩, ⟨1/10, 1/20, 3/20, 3, 0, none, none⟩,
      1, false, 0, 8, 3/200, 3/100⟩
    ⟨[], [("XUSDT", 0)], []⟩
    ⟨3600, false, some ⟨10000, 10000⟩, [], .noData, some ⟨"o", "XUSDT", "Buy", 10⟩⟩
    "XUSDT" "LONG" (1/2) 100 none 1 0 (by rfl) (by norm_num)).1

/-- Config for the cooldown counterexample: default risk parameters, 8-hour
cooldown. -/
def c5cfg : ExecConfig :=
  ⟨⟨3/200, 1/100, 1/10, ⟨false, 0, 0⟩⟩, ⟨1/10, 1/20, 3/20, 3, 0, none, none⟩,
    1, false, 0, 8, 3/200, 3/100⟩

/-- Environment of the opening trade at wall-clock time 0. -/
def c5envOpen : ExecTradeEnv :=
  ⟨0, false, some ⟨10000, 10000⟩, [], .noData, some ⟨"ord1", "XUSDT", "Buy", 10⟩⟩

/-- The opening `_execute_trade` call for `XUSDT` at time 0. -/
def c5Open : ExecResult :=
  execute_trade c5cfg ⟨[], [], []⟩ c5envOpen "XUSDT" "LONG" (1/2) 100 none 1

/-- The exchange view of the `XUSDT` position when it is closed (mark 103). -/
def c5ExchPos : ParsedPosition := ⟨"XUSDT", "Buy", 10, 100, 103, 1, 30, 0⟩

/-- The `_close_position` call for `XUSDT` (made at wall-clock time 14400,
i.e. 4 hours after the open; the close time is recorded nowhere). -/
def c5Close : BotState × Option ℚ := close_position c5Open.st [c5ExchPos] true "XUSDT"

/-- Config for the re-entry attempt (risk-manager state after the close:
daily PnL 30, peak/initial equity 10000). -/
def c5cfg2 : ExecConfig :=
  ⟨⟨3/200, 1/100, 1/10, ⟨false, 0, 0⟩⟩, ⟨1/10, 1/20, 3/20, 3, 30, some 10000, some 10000⟩,
    1, false, 0, 8, 3/200, 3/100⟩

/-- Environment of the re-entry trade at wall-clock time 32400 (9 hours after
the open, but only 5 hours after the close at 14400). -/
def c5envReopen : ExecTradeEnv :=
  ⟨32400, false, some ⟨10000, 10000⟩, [], .noData, some ⟨"ord2", "XUSDT", "Buy", 10⟩⟩

/-- The re-entry `_execute_trade` call for `XUSDT` at time 32400. -/
def c5Reopen : ExecResult :=
  execute_trade c5cfg2 c5Close.1 c5envReopen "XUSDT" "LONG" (1/2) 100 none 1

/-- C5 counterexample: a trade for `XUSDT` opened at time 0 sets the cooldown
timestamp to the *open* time; the close at time T = 14400 removes the
position but leaves the cooldown timestamp at 0; a high-confidence signal at
time 32400 — which is 9h after the open but only 5h after the close, i.e.
*before* `T + cooldownHours = 43200` — passes the cooldown check and opens a
new position, contradicting the claim that no new position opens before
`T + cooldownHours`. -/
theorem cooldown_close_time_cex :
    c5Open.success = true
    ∧ alistLookup c5Open.st.symbol_last_trade_time "XUSDT" = some 0
    ∧ alistLookup c5Close.1.positions "XUSDT" = none
    ∧ c5Close.1.symbol_last_trade_time = c5Open.st.symbol_last_trade_time
    ∧ c5Reopen.success = true
    ∧ c5Reopen.place_called = true
    ∧ (32400 : ℚ) < 14400 + 8 * 3600 := by
  refine ⟨?_, ?_, ?_, ?_, ?_, ?_, by norm_num⟩ <;>
    norm_num [c5Open, c5Close, c5Reopen, c5cfg, c5cfg2, c5envOpen, c5envReopen,
      c5ExchPos, execute_trade, close_position, calculate_position_size,
      check_risk_limits, rm_update_account_state, adjust_for_exchange_min,
      alistLookup, alistSet, alistErase, optTruthy, pyAbs, min_def]

/-! ## PositionReconciler (`live_bot.py` `_monitor_positions`) -/

/-- The exit-derivation config (`risk.stop_loss_pct` / `risk.take_profit_pct`)
used when adopting an untracked exchange position. -/
structure ExitConfig where
  stop_loss_pct : ℚ
  take_profit_pct : ℚ
deriving Repr, DecidableEq

/-- `{pos['symbol']: pos for pos in open_positions}` read at a key: in a dict
comprehension later duplicates overwrite earlier ones. -/
def exchDictLookup (snapshot : List ParsedPosition) (sym : String) :
    Option ParsedPosition :=
  snapshot.reverse.find? (fun p => p.symbol == sym)

/-- The stop-loss / take-profit breach test of `_monitor_positions`: the side
is the exchange-reported one, the levels are the tracked ones; a breach of
either level triggers a close. -/
def breached (pos : ParsedPosition) (tr : TrackedPos) : Bool :=
  if pos.side == "Buy" then
    decide (pos.mark_price ≤ tr.stop_loss) || decide (tr.take_profit ≤ pos.mark_price)
  else
    decide (tr.stop_loss ≤ pos.mark_price) || decide (pos.mark_price ≤ tr.take_profit)

/-- The side-mismatch resync (`tracked['side'] = pos['side']`, the exchange
being authoritative). -/
def sideFix (pos : ParsedPosition) (tr : TrackedPos) : TrackedPos :=
  if pos.side != tr.side then { tr with side := pos.side } else tr

/-- Adopting an untracked exchange position: stop/target derived from the
configured percentages off the reported entry price. -/
def adoptTracked (cfg : ExitConfig) (pos : ParsedPosition) : TrackedPos :=
  if pos.side == "Buy" then
    ⟨pos.entry_price, pos.side, pos.size, none,
      pos.entry_price * (1 - cfg.stop_loss_pct),
      pos.entry_price * (1 + cfg.take_profit_pct), true⟩
  else
    ⟨pos.entry_price, pos.side, pos.size, none,
      pos.entry_price * (1 + cfg.stop_loss_pct),
      pos.entry_price * (1 - cfg.take_profit_pct), true⟩

/-- First reconciliation loop (live_bot.py lines 1102–1133): for each tracked
position, drop it when absent from the exchange dict, resync the side, and on
a stop/target breach run `_close_position` (whose per-symbol fetch is the
same snapshot filtered; `closeOk` is the close-order outcome — deletion only
on success). -/
def reconcileTracked (closeOk : String → Bool) (snapshot : List ParsedPosition)
    (positions : List (String × TrackedPos)) : List (String × TrackedPos) :=
  positions.filterMap fun e =>
    match exchDictLookup snapshot e.1 with
    | none => none
    | some pos =>
        let tr1 := sideFix pos e.2
        if breached pos tr1 then
          match snapshot.filter (fun p => p.symbol == e.1) with
          | [] => some (e.1, tr1)
          | _ :: _ => if closeOk e.1 then none else some (e.1, tr1)
        else some (e.1, tr1)

/-- Second reconciliation loop (live_bot.py lines 1136–1170): adopt every
exchange position with no tracking entry (iterating the snapshot; under the
`Nodup` hypothesis of the idempotence theorem this coincides with iterating
the exchange dict). -/
def adoptUntracked (cfg : ExitConfig) (snapshot : List ParsedPosition)
    (m : List (String × TrackedPos)) : List (String × TrackedPos) :=
  snapshot.foldl
    (fun acc pos =>
      if (alistLookup acc pos.symbol).isSome then acc
      else acc ++ [(pos.symbol, adoptTracked cfg pos)]) m

/-- The reconciliation body of `TradingBot._monitor_positions` (live_bot.py
lines 1097–1170) against one exchange snapshot. The `_process_signal_queue`
prelude at line 1095 is admission control, not reconciliation, and is
modelled separately; a close's `update_daily_pnl` / `record_trade` side
effects concern RiskManager/PerformanceGuard, not the tracked-position map. -/
def monitor_positions (cfg : ExitConfig) (closeOk : String → Bool)
    (positions : List (String × TrackedPos)) (snapshot : List ParsedPosition) :
    List (String × TrackedPos) :=
  adoptUntracked cfg snapshot (reconcileTracked closeOk snapshot positions)

theorem breached_sideFix (pos : ParsedPosition) (tr : TrackedPos) :
    breached pos (sideFix pos tr) = breached pos tr := by
  unfold sideFix
  split <;> rfl

theorem sideFix_side (pos : ParsedPosition) (tr : TrackedPos) :
    (sideFix pos tr).side = pos.side := by
  unfold sideFix
  split
  · rfl
  · next h =>
    simp only [bne_iff_ne, ne_eq, not_not] at h
    exact h.symm

theorem alistLookup_append (l1 l2 : List (String × α)) (k : String) :
    alistLookup (l1 ++ l2) k = (alistLookup l1 k).or (alistLookup l2 k) := by
  induction l1 with
  | nil => simp [alistLookup]
  | cons a t ih =>
    by_cases h : a.1 == k
    · simp [alistLookup, List.find?_cons, h]
    · simpa [alistLookup, List.find?_cons, h] using ih

theorem alistLookup_of_mem_keys (l : List (String × α)) (k : String)
    (h : ∃ v, (k, v) ∈ l) : (alistLookup l k).isSome := by
  obtain ⟨v, hv⟩ := h
  induction l with
  | nil => cases hv
  | cons a t ih =>
    rcases List.mem_cons.mp hv with rfl | hv'
    · simp [alistLookup, List.find?_cons]
    · by_cases h1 : a.1 == k
      · simp [alistLookup, List.find?_cons, h1]
      · simpa [alistLookup, List.find?_cons, h1] using ih hv'

theorem find?_symbol_of_nodup_keys (l : List ParsedPosition)
    (hnd : (l.map (·.symbol)).Nodup) (pos : ParsedPosition) (hmem : pos ∈ l) :
    l.find? (fun p => p.symbol == pos.symbol) = some pos := by
  induction l with
  | nil => cases hmem
  | cons a t ih =>
    rw [List.map_cons, List.nodup_cons] at hnd
    rcases List.mem_cons.mp hmem with rfl | hmem'
    · exact List.find?_cons_of_pos _ (by simp)
    · by_cases hsym : a.symbol = pos.symbol
      · exact absurd (by rw [hsym]; exact List.mem_map_of_mem _ hmem') hnd.1
      · rw [List.find?_cons_of_neg _ (by simpa using hsym)]
        exact ih hnd.2 hmem'

theorem exchDictLookup_of_nodup (snapshot : List ParsedPosition)
    (hnd : (snapshot.map (·.symbol)).Nodup) (pos : ParsedPosition)
    (hmem : pos ∈ snapshot) : exchDictLookup snapshot pos.symbol = some pos := by
  unfold exchDictLookup
  apply find?_symbol_of_nodup_keys
  · rw [List.map_reverse]
    exact List.nodup_reverse.mpr hnd
  · exact List.mem_reverse.mpr hmem

theorem adoptTracked_side (cfg : ExitConfig) (pos : ParsedPosition) :
    (adoptTracked cfg pos).side = pos.side := by
  unfold adoptTracked
  split <;> rfl

theorem alistLookup_cons (a : String × α) (t : List (String × α)) (k : String) :
    alistLookup (a :: t) k = if a.1 == k then some a.2 else alistLookup t k := by
  by_cases h : a.1 == k <;> simp [alistLookup, List.find?, h]

/-- A state at which reconciliation against `snapshot` is a no-op: every
tracked entry matches an exchange entry with an equal side and no breach, and
every exchange position is tracked. -/
def reconStable (snapshot : List ParsedPosition)
    (m : List (String × TrackedPos)) : Prop :=
  (∀ e ∈ m, ∃ pos, exchDictLookup snapshot e.1 = some pos
      ∧ e.2.side = pos.side ∧ breached pos e.2 = false)
  ∧ ∀ pos ∈ snapshot, (alistLookup m pos.symbol).isSome

theorem reconcileTracked_of_stable (ok : String → Bool)
    (snapshot : List ParsedPosition) (m : List (String × TrackedPos))
    (h : ∀ e ∈ m, ∃ pos, exchDictLookup snapshot e.1 = some pos
      ∧ e.2.side = pos.side ∧ breached pos e.2 = false) :
    reconcileTracked ok snapshot m = m := by
  induction m with
  | nil => rfl
  | cons e t ih =>
    obtain ⟨pos, hlk, hside, hnb⟩ := h e (List.mem_cons_self _ _)
    have hfix : sideFix pos e.2 = e.2 := by
      unfold sideFix
      rw [if_neg (by simp [hside])]
    have ht := ih (fun x hx => h x (List.mem_cons_of_mem _ hx))
    unfold reconcileTracked at ht ⊢
    rw [List.filterMap_cons, hlk]
    dsimp only
    rw [hfix, hnb]
    simp only [Bool.false_eq_true, if_false, ht]

theorem adoptUntracked_of_covered (cfg : ExitConfig) (l : List ParsedPosition) :
    ∀ m, (∀ pos ∈ l, (alistLookup m pos.symbol).isSome) →
      adoptUntracked cfg l m = m := by
  induction l with
  | nil => intro m _; rfl
  | cons p t ih =>
    intro m h
    unfold adoptUntracked
    rw [List.foldl_cons, if_pos (h p (List.mem_cons_self _ _))]
    exact ih m (fun pos hp => h pos (List.mem_cons_of_mem _ hp))

/-- A reconciliation-stable state is a fixed point of `_monitor_positions`
(for any close-order oracle, since no close is triggered). -/
theorem monitor_of_stable (cfg : ExitConfig) (ok : String → Bool)
    (snapshot : List ParsedPosition) (m : List (String × TrackedPos))
    (hs : reconStable snapshot m) :
    monitor_positions cfg ok m snapshot = m := by
  unfold monitor_positions
  rw [reconcileTracked_of_stable ok snapshot m hs.1]
  exact adoptUntracked_of_covered cfg snapshot m hs.2

theorem reconcileTracked_no_breach (ok : String → Bool)
    (snapshot : List ParsedPosition) (positions : List (String × TrackedPos))
    (hnb1 : ∀ e ∈ positions, ∀ pos, exchDictLookup snapshot e.1 = some pos →
        breached pos e.2 = false) :
    reconcileTracked ok snapshot positions
      = positions.filterMap (fun e => (exchDictLookup snapshot e.1).map
          (fun pos => (e.1, sideFix pos e.2))) := by
  induction positions with
  | nil => rfl
  | cons e t ih =>
    have ht := ih (fun x hx pos hp => hnb1 x (List.mem_cons_of_mem _ hx) pos hp)
    unfold reconcileTracked at ht ⊢
    rw [List.filterMap_cons, List.filterMap_cons]
    rcases hlk : exchDictLookup snapshot e.1 with _ | pos
    · simp only [Option.map_none']
      exact ht
    · dsimp only [Option.map_some']
      rw [breached_sideFix, hnb1 e (List.mem_cons_self _ _) pos hlk]
      simp only [Bool.false_eq_true, if_false, ht]

theorem adopt_mem (cfg : ExitConfig) (l : List ParsedPosition) :
    ∀ (m : List (String × TrackedPos)) (e), e ∈ adoptUntracked cfg l m →
      e ∈ m ∨ ∃ pos ∈ l, e = (pos.symbol, adoptTracked cfg pos)
        ∧ alistLookup m pos.symbol = none := by
  induction l with
  | nil => intro m e he; exact Or.inl he
  | cons p t ih =>
    intro m e he
    unfold adoptUntracked at he
    rw [List.foldl_cons] at he
    by_cases hp : (alistLookup m p.symbol).isSome
    · rw [if_pos hp] at he
      rcases ih m e he with h | ⟨pos, hpos, heq, hnone⟩
      · exact Or.inl h
      · exact Or.inr ⟨pos, List.mem_cons_of_mem _ hpos, heq, hnone⟩
    · rw [if_neg hp] at he
      rcases ih (m ++ [(p.symbol, adoptTracked cfg p)]) e he with h | ⟨pos, hpos, heq, hnone⟩
      · rcases List.mem_append.mp h with h' | h'
        · exact Or.inl h'
        · exact Or.inr ⟨p, List.mem_cons_self _ _, List.mem_singleton.mp h',
            Option.not_isSome_iff_eq_none.mp hp⟩
      · rw [alistLookup_append] at hnone
        refine Or.inr ⟨pos, List.mem_cons_of_mem _ hpos, heq, ?_⟩
        rcases h' : alistLookup m pos.symbol with _ | v
        · rfl
        · rw [h'] at hnone
          simp [Option.or] at hnone

theorem adopt_mono (cfg : ExitConfig) (l : List ParsedPosition) :
    ∀ (m : List (String × TrackedPos)) k v, alistLookup m k = some v →
      alistLookup (adoptUntracked cfg l m) k = some v := by
  induction l with
  | nil => intro m k v h; exact h
  | cons p t ih =>
    intro m k v h
    unfold adoptUntracked
    rw [List.foldl_cons]
    by_cases hp : (alistLookup m p.symbol).isSome
    · rw [if_pos hp]
      exact ih m k v h
    · rw [if_neg hp]
      refine ih _ k v ?_
      rw [alistLookup_append, h]
      rfl

theorem adopt_covers (cfg : ExitConfig) (l : List ParsedPosition) :
    ∀ (m : List (String × TrackedPos)) (pos), pos ∈ l →
      (alistLookup (adoptUntracked cfg l m) pos.symbol).isSome := by
  induction l with
  | nil => intro m pos hmem; cases hmem
  | cons p t ih =>
    intro m pos hmem
    unfold adoptUntracked
    rw [List.foldl_cons]
    rcases List.mem_cons.mp hmem with rfl | hmem'
    · by_cases hp : (alistLookup m pos.symbol).isSome
      · rw [if_pos hp]
        obtain ⟨v, hv⟩ := Option.isSome_iff_exists.mp hp
        rw [show List.foldl _ m t = adoptUntracked cfg t m from rfl,
          adopt_mono cfg t m pos.symbol v hv]
        rfl
      · rw [if_neg hp]
        have hv : alistLookup (m ++ [(pos.symbol, adoptTracked cfg pos)]) pos.symbol
            = some (adoptTracked cfg pos) := by
          rw [alistLookup_append, Option.not_isSome_iff_eq_none.mp hp]
          simp [alistLookup, List.find?_cons_of_pos]
        rw [show List.foldl _ _ t = adoptUntracked cfg t _ from rfl,
          adopt_mono cfg t _ pos.symbol _ hv]
        rfl
    · by_cases hp : (alistLookup m p.symbol).isSome
      · rw [if_pos hp]
        exact ih m pos hmem'
      · rw [if_neg hp]
        exact ih _ pos hmem'

theorem lookup_reconciled_isSome (snapshot : List ParsedPosition)
    (positions : List (String × TrackedPos)) (sym : String)
    (hx : (exchDictLookup snapshot sym).isSome)
    (h : (alistLookup positions sym).isSome) :
    (alistLookup (positions.filterMap (fun e => (exchDictLookup snapshot e.1).map
        (fun pos => (e.1, sideFix pos e.2)))) sym).isSome := by
  induction positions with
  | nil => simp [alistLookup] at h
  | cons e t ih =>
    rw [List.filterMap_cons]
    rw [alistLookup_cons] at h
    by_cases hk : e.1 == sym
    · have h1 : e.1 = sym := by simpa using hk
      rcases hlk : exchDictLookup snapshot e.1 with _ | pos
      · rw [h1] at hlk
        rw [hlk] at hx
        cases hx
      · dsimp only [Option.map_some']
        rw [alistLookup_cons, if_pos hk]
        rfl
    · rw [if_neg hk] at h
      rcases hlk : exchDictLookup snapshot e.1 with _ | pos
      · dsimp only [Option.map_none']
        exact ih h
      · dsimp only [Option.map_some']
        rw [alistLookup_cons, if_neg hk]
        exact ih h

/-- C7: position reconciliation is idempotent against an unchanged exchange
snapshot. Hypotheses: the snapshot lists each symbol once, no tracked entry
present on the exchange has its stop/target breached at the observed mark
price, and no entry adopted from the snapshot would be breached either — i.e.
no stop-loss/take-profit fires at the observed marks. Then the second
reconciliation pass performs zero mutations: it returns the tracked map of
the first pass unchanged (no position added, removed, or modified), for any
close-order oracles. -/
theorem reconciliation_idempotent (cfg : ExitConfig) (ok ok' : String → Bool)
    (positions : List (String × TrackedPos)) (snapshot : List ParsedPosition)
    (hnd : (snapshot.map (·.symbol)).Nodup)
    (hnb1 : ∀ e ∈ positions, ∀ pos, exchDictLookup snapshot e.1 = some pos →
        breached pos e.2 = false)
    (hnb2 : ∀ pos ∈ snapshot, alistLookup positions pos.symbol = none →
        breached pos (adoptTracked cfg pos) = false) :
    monitor_positions cfg ok' (monitor_positions cfg ok positions snapshot) snapshot
      = monitor_positions cfg ok positions snapshot := by
  apply monitor_of_stable
  have hchar : reconcileTracked ok snapshot positions
      = positions.filterMap (fun e => (exchDictLookup snapshot e.1).map
          (fun pos => (e.1, sideFix pos e.2))) :=
    reconcileTracked_no_breach ok snapshot positions hnb1
  constructor
  · intro e he
    unfold monitor_positions at he
    rcases adopt_mem cfg snapshot (reconcileTracked ok snapshot positions) e he with
      hmem | ⟨pos, hpos, rfl, hnone⟩
    · rw [hchar] at hmem
      obtain ⟨a, ha, hfa⟩ := List.mem_filterMap.mp hmem
      rcases hlk : exchDictLookup snapshot a.1 with _ | pos
      · rw [hlk] at hfa; cases hfa
      · rw [hlk] at hfa
        dsimp only [Option.map_some'] at hfa
        injection hfa with hfa
        subst hfa
        exact ⟨pos, hlk, sideFix_side pos a.2, by
          rw [breached_sideFix]
          exact hnb1 a ha pos hlk⟩
    · refine ⟨pos, exchDictLookup_of_nodup snapshot hnd pos hpos,
        adoptTracked_side cfg pos, ?_⟩
      apply hnb2 pos hpos
      by_contra hcon
      have hsome : (alistLookup positions pos.symbol).isSome :=
        Option.ne_none_iff_isSome.mp hcon
      have hx : (exchDictLookup snapshot pos.symbol).isSome := by
        rw [exchDictLookup_of_nodup snapshot hnd pos hpos]
        rfl
      have hres := lookup_reconciled_isSome snapshot positions pos.symbol hx hsome
      rw [← hchar, hnone] at hres
      cases hres
  · intro pos hpos
    unfold monitor_positions
    exact adopt_covers cfg snapshot _ pos hpos

/-- Closed witness for `reconciliation_idempotent`: an empty tracked map
against a one-position snapshot whose derived stop/target are unbreached. -/
theorem reconciliation_idempotent_witness :
    monitor_positions ⟨3/200, 3/100⟩ (fun _ => true)
        (monitor_positions ⟨3/200, 3/100⟩ (fun _ => true) []
          [⟨"XUSDT", "Buy", 10, 100, 101, 1, 0, 0⟩])
        [⟨"XUSDT", "Buy", 10, 100, 101, 1, 0, 0⟩]
      = monitor_positions ⟨3/200, 3/100⟩ (fun _ => true) []
          [⟨"XUSDT", "Buy", 10, 100, 101, 1, 0, 0⟩] := by
  apply reconciliation_idempotent
  · simp
  · intro e he
    cases he
  · intro pos hpos _
    rcases List.mem_singleton.mp hpos with rfl
    norm_num [breached, adoptTracked]

end AiBot
